import Mathlib

/-!
# MyLib `file/Json.hpp`: a shallow embedding of the JSON value model

The C++ classes `JsonValue`, `JsonArray`, `JsonPair`, `JsonObject` and `Json`
are embedded over an explicit heap.  A `JsonValue` is a three-field handle
(`value`, `refCount`, `type`); what the two pointers designate lives in heap
cells, so that two handles holding the same pointers share one payload.

Json.hpp holds the inline members only.  What it declares and defines
elsewhere (`assertType`, `copy`, `release`, `assign`, the `create*` family,
`removePair`, `buildMap`, `openFromMemory` with the parser) is modelled from
the specification, and the doc comment of each such definition says so.

Conventions:
* a method that may throw or run into undefined behaviour returns a `Result`;
* a method that writes returns the state it may have written next to its
  `Result`, so that what a failing call leaves behind can be stated;
* `int index` is an `Int`, converted with an explicit `% 2 ^ 32` where the
  source casts it to `unsigned`;
* a `std::string` is a `String`, one `Char` of it standing for one `char`; a
  `(const char *, size_t)` argument pair is the text at the pointer and the
  number of characters to take from it;
* `void *value` doubles as the Boolean sentinel (`(void *)1` or `nullptr`),
  as in the source, so addresses are plain natural numbers.
-/

namespace MyLib

/-! ## Data model -/

/-- The enumeration `JsonValue::Type` (Json.hpp, lines 20-28). -/
inductive JsonType where
  | NULL_VALUE
  | STRING
  | NUMBER
  | OBJECT
  | ARRAY
  | BOOLEAN
  deriving DecidableEq, Repr

/-- The null pointer.  Addresses are natural numbers; `0` is `nullptr`. -/
def nullptr : Nat := 0

/-- A C++ `double`, kept as its 64-bit pattern: the model only stores and loads
doubles, it never computes with them. -/
structure Double where
  bits : Nat
  deriving DecidableEq, Repr

/-- The data members of `JsonValue` (Json.hpp, lines 145-147):
`void *value; int *refCount; Type type;`. -/
structure JsonValue where
  value : Nat
  refCount : Nat
  type : JsonType
  deriving DecidableEq, Repr

/-- The class `JsonArray` (Json.hpp, lines 151-161): its one data member
`std::vector<JsonValue> array`.  The vector holds handles by value. -/
structure JsonArray where
  array : List JsonValue
  deriving DecidableEq, Repr

/-- The data members of `JsonPair` (Json.hpp, lines 179-180). -/
structure JsonPair where
  name : String
  value : JsonValue
  deriving DecidableEq, Repr

/-- The class `JsonObject` (Json.hpp, lines 184-207): its one data member
`std::list<JsonPair> pairs`. -/
structure JsonObject where
  pairs : List JsonPair
  deriving DecidableEq, Repr

/-- What one heap allocation holds.  `Array` and `Object` are the two structs
of Json.hpp lines 30-40 (a container pointer and a format-AST pointer). -/
inductive Cell where
  | string (s : String)
  | double (d : Double)
  | int (n : Int)
  | Array (arr ast : Nat)
  | Object (obj ast : Nat)
  | JsonArray (a : JsonArray)
  | JsonObject (o : JsonObject)
  deriving DecidableEq, Repr

/-- The heap: the cells allocated so far, and the next unused address. -/
structure Heap where
  cells : Nat → Option Cell
  next : Nat

namespace Heap

/-- The heap with nothing allocated. -/
def empty : Heap := ⟨fun _ => none, 1⟩

/-- The live object at `p`, if any.  Nothing lives at `nullptr` or at an
address that was never handed out. -/
def read (h : Heap) (p : Nat) : Option Cell :=
  if p = 0 ∨ h.next ≤ p then none else h.cells p

/-- Overwrite the cell at `p`. -/
def write (h : Heap) (p : Nat) (c : Cell) : Heap :=
  ⟨fun q => if q = p then some c else h.cells q, h.next⟩

/-- The effect of `delete` on the cell at `p`. -/
def free (h : Heap) (p : Nat) : Heap :=
  ⟨fun q => if q = p then none else h.cells q, h.next⟩

/-- The effect of `new`: a fresh non-null address holding `c`. -/
def alloc (h : Heap) (c : Cell) : Nat × Heap :=
  let p := max h.next 1
  (p, ⟨fun q => if q = p then some c else h.cells q, p + 1⟩)

end Heap

/-- The `Exception` thrown by `assertType`, naming the actual and the expected
type. -/
inductive Exception where
  | typeMismatch (actual expected : JsonType)
  deriving DecidableEq, Repr

/-- How a call ends: it returns, it throws, or it has no defined behaviour
(a dereference of a pointer at which no object of the accessed type lives, an
unchecked index past the end of a container). -/
inductive Result (α : Type) where
  | ok (a : α)
  | raise (e : Exception)
  | undefined
  deriving DecidableEq, Repr

namespace Result

/-- Sequencing: the first call that does not return ends the sequence. -/
def bind {α β : Type} (r : Result α) (f : α → Result β) : Result β :=
  match r with
  | ok a => f a
  | raise e => raise e
  | undefined => undefined

/-- Whether the call threw. -/
def raised {α : Type} (r : Result α) : Bool :=
  match r with
  | raise _ => true
  | _ => false

end Result

/-- The right-hand side of a copy assignment `x = y` of a container or a
document.  C++ tells by address whether `y` is the object `x` itself
(`this != &y`); the embedding passes states, not addresses, so the call says
which of the two it is: `self` for `x = x`, `other a` for another object in
the state `a`. -/
inductive Rhs (α : Type) where
  | self
  | other (a : α)
  deriving DecidableEq, Repr

/-- The right-hand side seen through a member: `y.member` is `x.member` itself
exactly when `y` is `x`. -/
def Rhs.map {α β : Type} (f : α → β) (r : Rhs α) : Rhs β :=
  match r with
  | Rhs.self => Rhs.self
  | Rhs.other a => Rhs.other (f a)

/-! ## `JsonValue`: typed access -/

namespace JsonValue

/-- Modelled from the spec: `JsonValue::assertType` is declared at Json.hpp
line 48 and defined outside the given sources.  Spec 4.1: each accessor
"asserts the tag matches the requested variant and fails with a type-mismatch
error (naming the actual vs. expected type) otherwise". -/
def assertType (this : JsonValue) (type : JsonType) : Result Unit :=
  if this.type = type then Result.ok () else Result.raise (Exception.typeMismatch this.type type)

/-- `getType` (Json.hpp, line 50). -/
def getType (this : JsonValue) : JsonType := this.type

/-- `getString` (Json.hpp, lines 66-70) returns `std::string &`: the address in
`value`, reinterpreted, after the type assertion. -/
def getString (this : JsonValue) : Result Nat :=
  (assertType this JsonType.STRING).bind fun _ => Result.ok this.value

/-- `getBoolean` (Json.hpp, lines 80-84): `this->value != nullptr`. -/
def getBoolean (this : JsonValue) : Result Bool :=
  (assertType this JsonType.BOOLEAN).bind fun _ => Result.ok (this.value != nullptr)

/-- `getNumber` (Json.hpp, lines 94-98): loads the `double` at `value`. -/
def getNumber (this : JsonValue) (h : Heap) : Result Double :=
  (assertType this JsonType.NUMBER).bind fun _ =>
    match h.read this.value with
    | some (Cell.double d) => Result.ok d
    | _ => Result.undefined

/-- `getArray` (Json.hpp, lines 102-112, both overloads):
`((Array *)this->value)->arr`. -/
def getArray (this : JsonValue) (h : Heap) : Result Nat :=
  (assertType this JsonType.ARRAY).bind fun _ =>
    match h.read this.value with
    | some (Cell.Array arr _) => Result.ok arr
    | _ => Result.undefined

/-- `getObject` (Json.hpp, lines 122-126): `((Object *)this->value)->obj`. -/
def getObject (this : JsonValue) (h : Heap) : Result Nat :=
  (assertType this JsonType.OBJECT).bind fun _ =>
    match h.read this.value with
    | some (Cell.Object obj _) => Result.ok obj
    | _ => Result.undefined

/-! ## `JsonValue`: typed mutation -/

/-- `setString` (Json.hpp, lines 60-64): after the type assertion, assigns to
the `std::string` at `value`.  Only the heap can change. -/
def setString (this : JsonValue) (str : String) (h : Heap) : Result Unit × Heap :=
  match assertType this JsonType.STRING with
  | Result.ok _ =>
    match h.read this.value with
    | some (Cell.string _) => (Result.ok (), h.write this.value (Cell.string str))
    | _ => (Result.undefined, h)
  | Result.raise e => (Result.raise e, h)
  | Result.undefined => (Result.undefined, h)

/-- `setBoolean` (Json.hpp, lines 74-78): after the type assertion,
`this->value = value ? (void *)1 : nullptr`.  Only the handle can change. -/
def setBoolean (this : JsonValue) (value : Bool) : Result Unit × JsonValue :=
  match assertType this JsonType.BOOLEAN with
  | Result.ok _ => (Result.ok (), { this with value := if value then 1 else nullptr })
  | Result.raise e => (Result.raise e, this)
  | Result.undefined => (Result.undefined, this)

/-- `setNumber` (Json.hpp, lines 88-92): after the type assertion, stores to
the `double` at `value`.  Only the heap can change. -/
def setNumber (this : JsonValue) (value : Double) (h : Heap) : Result Unit × Heap :=
  match assertType this JsonType.NUMBER with
  | Result.ok _ =>
    match h.read this.value with
    | some (Cell.double _) => (Result.ok (), h.write this.value (Cell.double value))
    | _ => (Result.undefined, h)
  | Result.raise e => (Result.raise e, h)
  | Result.undefined => (Result.undefined, h)

/-! ## `JsonValue`: construction, copy, release

Of these only the default constructor and the copy constructor have their
bodies in Json.hpp; `copy`, `release`, `assign` and the `create*` family are
declared there and defined outside the given sources. -/

/-- The default constructor (Json.hpp, line 42):
`value(nullptr), refCount(new int(1)), type(NULL_VALUE)`. -/
def construct (h : Heap) : JsonValue × Heap :=
  let a := h.alloc (Cell.int 1)
  (⟨nullptr, a.1, JsonType.NULL_VALUE⟩, a.2)

/-- Modelled from the spec: `JsonValue::copy` is declared at Json.hpp line 143
and defined outside the given sources.  Spec 3: "copy increments the reference
count; it does not duplicate the payload"; spec 4.1: "shallow/shared copy of
the payload (increment reference count)".  The new handle gets the three
fields of `v`; the count behind `refCount` goes up by one.  The count is an
unbounded integer here: overflowing an `int` takes 2^31 live handles of one
payload. -/
def copy (v : JsonValue) (h : Heap) : Result JsonValue × Heap :=
  match h.read v.refCount with
  | some (Cell.int n) =>
    (Result.ok ⟨v.value, v.refCount, v.type⟩, h.write v.refCount (Cell.int (n + 1)))
  | _ => (Result.undefined, h)

/-- The copy constructor (Json.hpp, line 43): `{ copy(v); }`. -/
def copyConstruct (v : JsonValue) (h : Heap) : Result JsonValue × Heap :=
  copy v h

/-- Destroy each handle in turn (the elements of a container that is being
deleted), stopping at the first destruction that does not return. -/
def forEach (f : JsonValue → Heap → Option (Result Unit × Heap)) :
    List JsonValue → Heap → Option (Result Unit × Heap)
  | [], h => some (Result.ok (), h)
  | v :: vs, h =>
    match f v h with
    | some (Result.ok _, h1) => forEach f vs h1
    | other => other

/-- Modelled from the spec: `JsonValue::release` is declared at Json.hpp line
142 and defined outside the given sources.  Spec 3: it "releases the old shared
payload (decrementing its count, freeing it at zero)"; Boolean and Null "use no
heap allocation for their payload"; spec 4.1: "for Array/Object this destroys
the owned container", which destroys the handles the container holds.  The
format-AST pointer is owned by the parser and is left alone.

Destroying a container recurses into the handles it holds, so the model takes
fuel: `none` means the fuel ran out, never a behaviour of the program.  One
unit of fuel is enough whenever no container is destroyed. -/
def release : Nat → JsonValue → Heap → Option (Result Unit × Heap)
  | 0, _, _ => none
  | fuel + 1, this, h =>
    match h.read this.refCount with
    | some (Cell.int n) =>
      let h1 := h.write this.refCount (Cell.int (n - 1))
      if n - 1 = 0 then
        match this.type with
        | JsonType.NULL_VALUE => some (Result.ok (), h1.free this.refCount)
        | JsonType.BOOLEAN => some (Result.ok (), h1.free this.refCount)
        | JsonType.STRING =>
          match h1.read this.value with
          | some (Cell.string _) => some (Result.ok (), (h1.free this.value).free this.refCount)
          | _ => some (Result.undefined, h1)
        | JsonType.NUMBER =>
          match h1.read this.value with
          | some (Cell.double _) => some (Result.ok (), (h1.free this.value).free this.refCount)
          | _ => some (Result.undefined, h1)
        | JsonType.ARRAY =>
          match h1.read this.value with
          | some (Cell.Array arr _) =>
            match h1.read arr with
            | some (Cell.JsonArray a) =>
              match forEach (release fuel) a.array h1 with
              | some (Result.ok _, h2) =>
                some (Result.ok (), ((h2.free arr).free this.value).free this.refCount)
              | other => other
            | _ => some (Result.undefined, h1)
          | _ => some (Result.undefined, h1)
        | JsonType.OBJECT =>
          match h1.read this.value with
          | some (Cell.Object obj _) =>
            match h1.read obj with
            | some (Cell.JsonObject o) =>
              match forEach (release fuel) (o.pairs.map fun p => p.value) h1 with
              | some (Result.ok _, h2) =>
                some (Result.ok (), ((h2.free obj).free this.value).free this.refCount)
              | other => other
            | _ => some (Result.undefined, h1)
          | _ => some (Result.undefined, h1)
      else some (Result.ok (), h1)
    | _ => some (Result.undefined, h)

/-- What follows a `release()` inside a method: `k` runs on the heap the
release left; a release that does not return ends the method. -/
def afterRelease (r : Option (Result Unit × Heap)) (k : Heap → Result JsonValue × Heap) :
    Option (Result JsonValue × Heap) :=
  match r with
  | none => none
  | some (Result.ok _, h1) => some (k h1)
  | some (Result.raise e, h1) => some (Result.raise e, h1)
  | some (Result.undefined, h1) => some (Result.undefined, h1)

/-- Modelled from the spec: `JsonValue::assign` is declared at Json.hpp line
136 and defined outside the given sources.  Spec 3: assignment "releases the
old shared payload (decrementing its count, freeing it at zero) and adopts the
new one".  The result is the new state of `this`. -/
def assign (fuel : Nat) (this v : JsonValue) (h : Heap) : Option (Result JsonValue × Heap) :=
  afterRelease (release fuel this h) fun h1 => copy v h1

/-- `operator =` (Json.hpp, lines 138-139): `this->assign(v); return *this;`. -/
def assignOp (fuel : Nat) (this v : JsonValue) (h : Heap) : Option (Result JsonValue × Heap) :=
  assign fuel this v h

/-- Modelled from the spec: `createString(const char *, size_t)` is declared at
Json.hpp line 57 and defined outside the given sources.  Spec 8 calls it
"re-creating `a` as a *new* payload": the old payload is released, and the
handle gets a fresh `std::string` built from the first `length` characters at
`str`, with a fresh count of 1. -/
def createString (fuel : Nat) (this : JsonValue) (str : String) (length : Nat) (h : Heap) :
    Option (Result JsonValue × Heap) :=
  afterRelease (release fuel this h) fun h1 =>
    let a := h1.alloc (Cell.string (String.mk (str.data.take length)))
    let r := a.2.alloc (Cell.int 1)
    (Result.ok ⟨a.1, r.1, JsonType.STRING⟩, r.2)

/-- `createString(const std::string &)` (Json.hpp, line 58):
`createString(str.data(), str.length())`. -/
def createStringStd (fuel : Nat) (this : JsonValue) (str : String) (h : Heap) :
    Option (Result JsonValue × Heap) :=
  createString fuel this str str.length h

/-- Modelled from the spec: `createBoolean` is declared at Json.hpp line 72 and
defined outside the given sources.  Spec 3: Boolean uses "no heap allocation
for [its] payload (the tag alone, or a sentinel, encodes the value)"; the
sentinel is the one `setBoolean` writes. -/
def createBoolean (fuel : Nat) (this : JsonValue) (value : Bool) (h : Heap) :
    Option (Result JsonValue × Heap) :=
  afterRelease (release fuel this h) fun h1 =>
    let r := h1.alloc (Cell.int 1)
    (Result.ok ⟨if value then 1 else nullptr, r.1, JsonType.BOOLEAN⟩, r.2)

/-- Modelled from the spec: `createNumber` is declared at Json.hpp line 86 and
defined outside the given sources.  Spec 3: "Number holds an owned double". -/
def createNumber (fuel : Nat) (this : JsonValue) (value : Double) (h : Heap) :
    Option (Result JsonValue × Heap) :=
  afterRelease (release fuel this h) fun h1 =>
    let a := h1.alloc (Cell.double value)
    let r := a.2.alloc (Cell.int 1)
    (Result.ok ⟨a.1, r.1, JsonType.NUMBER⟩, r.2)

/-- Modelled from the spec: `createArray` is declared at Json.hpp line 100 and
defined outside the given sources.  Spec 4.1: "a new Value wrapping an empty
Array/Object plus a null format-AST reference". -/
def createArray (fuel : Nat) (this : JsonValue) (h : Heap) : Option (Result JsonValue × Heap) :=
  afterRelease (release fuel this h) fun h1 =>
    let c := h1.alloc (Cell.JsonArray ⟨[]⟩)
    let a := c.2.alloc (Cell.Array c.1 nullptr)
    let r := a.2.alloc (Cell.int 1)
    (Result.ok ⟨a.1, r.1, JsonType.ARRAY⟩, r.2)

/-- Modelled from the spec: `createObject` is declared at Json.hpp line 120 and
defined outside the given sources.  Spec 4.1, as for `createArray`. -/
def createObject (fuel : Nat) (this : JsonValue) (h : Heap) : Option (Result JsonValue × Heap) :=
  afterRelease (release fuel this h) fun h1 =>
    let c := h1.alloc (Cell.JsonObject ⟨[]⟩)
    let a := c.2.alloc (Cell.Object c.1 nullptr)
    let r := a.2.alloc (Cell.int 1)
    (Result.ok ⟨a.1, r.1, JsonType.OBJECT⟩, r.2)

/-- Modelled from the spec: the static `create(const char *, size_t)` is
declared at Json.hpp line 52 and defined outside the given sources.  Spec 4.1:
"a new Value of the matching variant; never fails": a default-constructed
value re-created as a String and returned. -/
def create (str : String) (length : Nat) (h : Heap) : Option (Result JsonValue × Heap) :=
  let v := construct h
  createString 1 v.1 str length v.2

/-- The static `create(const std::string &)` (Json.hpp, line 53):
`create(str.data(), str.length())`. -/
def createStd (str : String) (h : Heap) : Option (Result JsonValue × Heap) :=
  create str str.length h

/-- Modelled from the spec: the static `create(bool)` is declared at Json.hpp
line 54 and defined outside the given sources; as for `create`. -/
def createBool (value : Bool) (h : Heap) : Option (Result JsonValue × Heap) :=
  let v := construct h
  createBoolean 1 v.1 value v.2

/-- Modelled from the spec: the static `create(double)` is declared at Json.hpp
line 55 and defined outside the given sources; as for `create`. -/
def createDouble (value : Double) (h : Heap) : Option (Result JsonValue × Heap) :=
  let v := construct h
  createNumber 1 v.1 value v.2

/-- The call `JsonValue::create("...")` with a string literal as its one
argument.  The one-argument overloads are those of Json.hpp lines 53-55:
`create(const std::string &)`, `create(bool)`, `create(double)`.  The literal
decays to `const char *`; its conversion to `bool` is a standard conversion,
its conversion to `std::string` a user-defined one, and C++ overload resolution
prefers the standard conversion: the call is `create(bool)`.  The pointer to a
literal is not null, so the argument is `true`, whatever the text. -/
def createLiteral (_literal : String) (h : Heap) : Option (Result JsonValue × Heap) :=
  createBool true h

end JsonValue

/-! ## `JsonArray` -/

namespace JsonArray

/-- `put` (Json.hpp, line 155): `this->array.push_back(v)`.  `push_back`
copy-constructs the new element from `v`, which goes through
`JsonValue::copy`.  A reallocation of the vector copies and destroys every
old element, which leaves each count as it was. -/
def put (this : JsonArray) (v : JsonValue) (h : Heap) : Result JsonArray × Heap :=
  match JsonValue.copyConstruct v h with
  | (Result.ok e, h1) => (Result.ok ⟨this.array ++ [e]⟩, h1)
  | (Result.raise x, h1) => (Result.raise x, h1)
  | (Result.undefined, h1) => (Result.undefined, h1)

/-- `get` (Json.hpp, lines 156-157): `this->array[(unsigned)index]`.  The cast
of the `int` to a 32-bit `unsigned` is the `% 2 ^ 32`; `std::vector::operator[]`
does not check the index, so past the end nothing is defined. -/
def get (this : JsonArray) (index : Int) : Result JsonValue :=
  match this.array[(index % 2 ^ 32).toNat]? with
  | some v => Result.ok v
  | none => Result.undefined

/-- `getSize` (Json.hpp, line 158). -/
def getSize (this : JsonArray) : Nat := this.array.length

/-- `operator []` (Json.hpp, lines 159-160): `return this->get(index)`. -/
def subscript (this : JsonArray) (index : Int) : Result JsonValue :=
  this.get index

/-- The call `p->put(v)` on the `JsonArray` living at `p`. -/
def putAt (p : Nat) (v : JsonValue) (h : Heap) : Result Unit × Heap :=
  match h.read p with
  | some (Cell.JsonArray a) =>
    match a.put v h with
    | (Result.ok a1, h1) => (Result.ok (), h1.write p (Cell.JsonArray a1))
    | (Result.raise x, h1) => (Result.raise x, h1)
    | (Result.undefined, h1) => (Result.undefined, h1)
  | _ => (Result.undefined, h)

/-- The call `p->getSize()` on the `JsonArray` living at `p`. -/
def getSizeAt (p : Nat) (h : Heap) : Result Nat :=
  match h.read p with
  | some (Cell.JsonArray a) => Result.ok a.getSize
  | _ => Result.undefined

/-- The call `p->get(index)` on the `JsonArray` living at `p`. -/
def getAt (p : Nat) (index : Int) (h : Heap) : Result JsonValue :=
  match h.read p with
  | some (Cell.JsonArray a) => a.get index
  | _ => Result.undefined

end JsonArray

/-! ## `JsonPair` -/

namespace JsonPair

/-- The constructor `JsonPair(const std::string &name) : name(name) {}`
(Json.hpp, line 167); `value` is default-constructed. -/
def construct (name : String) (h : Heap) : JsonPair × Heap :=
  let v := JsonValue.construct h
  (⟨name, v.1⟩, v.2)

/-- The implicit copy constructor: copies `name`, copy-constructs `value`. -/
def copyConstruct (p : JsonPair) (h : Heap) : Result JsonPair × Heap :=
  match JsonValue.copyConstruct p.value h with
  | (Result.ok v, h1) => (Result.ok ⟨p.name, v⟩, h1)
  | (Result.raise x, h1) => (Result.raise x, h1)
  | (Result.undefined, h1) => (Result.undefined, h1)

/-- `setName` (Json.hpp, line 169). -/
def setName (this : JsonPair) (name : String) : JsonPair := { this with name := name }

/-- `getName` (Json.hpp, line 170). -/
def getName (this : JsonPair) : String := this.name

/-- `setValue` (Json.hpp, line 172): `this->value = value`, an assignment of
`JsonValue`. -/
def setValue (fuel : Nat) (this : JsonPair) (value : JsonValue) (h : Heap) :
    Option (Result JsonPair × Heap) :=
  match JsonValue.assignOp fuel this.value value h with
  | none => none
  | some (Result.ok v, h1) => some (Result.ok { this with value := v }, h1)
  | some (Result.raise x, h1) => some (Result.raise x, h1)
  | some (Result.undefined, h1) => some (Result.undefined, h1)

/-- `getValue` (Json.hpp, line 173): returns a copy of `value`. -/
def getValue (this : JsonPair) (h : Heap) : Result JsonValue × Heap :=
  JsonValue.copyConstruct this.value h

/-- `equals` (Json.hpp, line 176): `this->name == name`. -/
def equals (this : JsonPair) (name : String) : Bool := this.name == name

/-- The implicit copy assignment of `JsonPair`: `name = p.name`, then
`value = p.value`, an assignment of `JsonValue`. -/
def assignOp (fuel : Nat) (this p : JsonPair) (h : Heap) : Option (Result JsonPair × Heap) :=
  match JsonValue.assignOp fuel this.value p.value h with
  | none => none
  | some (Result.ok v, h1) => some (Result.ok ⟨p.name, v⟩, h1)
  | some (Result.raise x, h1) => some (Result.raise x, h1)
  | some (Result.undefined, h1) => some (Result.undefined, h1)

end JsonPair

/-! ## `JsonObject` -/

/-- A `JsonValue *` into the value slot of a pair (what `getReferenceValue`,
Json.hpp line 174, returns): `none` is `nullptr`, `some i` is the slot of the
pair at position `i` of the sequence the pointer was taken from.  The nodes of
a `std::list` do not move, so within one snapshot the position names the
slot. -/
abbrev SlotPtr := Option Nat

/-- `JsonObject::PairMap` (Json.hpp, line 188): `std::map<std::string,
JsonValue *>`, as the list of its entries; a key occurs at most once. -/
abbrev PairMap := List (String × SlotPtr)

namespace PairMap

/-- The entry of `key`, if the map has one (`std::map::find`). -/
def find (m : PairMap) (key : String) : Option SlotPtr :=
  match m with
  | [] => none
  | e :: es => if e.1 = key then some e.2 else find es key

/-- `std::map::operator[]`: the mapped pointer of `key`; a key without entry
gets one holding `nullptr`, and that is what is returned. -/
def subscript (m : PairMap) (key : String) : SlotPtr × PairMap :=
  match m.find key with
  | some r => (r, m)
  | none => (none, m ++ [(key, none)])

/-- Overwrite the mapped pointer of an existing `key`. -/
def replace (m : PairMap) (key : String) (r : SlotPtr) : PairMap :=
  m.map fun e => if e.1 = key then (key, r) else e

/-- One step of the walk of `buildMap`: enter `key ↦ r`.  When `key` already
has an entry, `lastWins` decides whether the new pointer replaces it. -/
def enter (lastWins : Bool) (m : PairMap) (key : String) (r : SlotPtr) : PairMap :=
  match m.find key with
  | none => m ++ [(key, r)]
  | some _ => if lastWins then m.replace key r else m

end PairMap

namespace JsonObject

/-- `addPair` (Json.hpp, line 190): `pairs.push_back(p)`, which copy-constructs
the new node from `p`. -/
def addPair (this : JsonObject) (p : JsonPair) (h : Heap) : Result JsonObject × Heap :=
  match JsonPair.copyConstruct p h with
  | (Result.ok e, h1) => (Result.ok ⟨this.pairs ++ [e]⟩, h1)
  | (Result.raise x, h1) => (Result.raise x, h1)
  | (Result.undefined, h1) => (Result.undefined, h1)

/-- The traversal `begin()` .. `end()` (Json.hpp, lines 195-198): the pairs in
list order. -/
def traverse (this : JsonObject) : List JsonPair := this.pairs

/-- `front` (Json.hpp, lines 199-200): `pairs.front()`, not defined on an empty
list. -/
def front (this : JsonObject) : Result JsonPair :=
  match this.pairs.head? with
  | some p => Result.ok p
  | none => Result.undefined

/-- `back` (Json.hpp, lines 201-202): `pairs.back()`, not defined on an empty
list. -/
def back (this : JsonObject) : Result JsonPair :=
  match this.pairs.getLast? with
  | some p => Result.ok p
  | none => Result.undefined

/-- `getPairsSize` (Json.hpp, line 203). -/
def getPairsSize (this : JsonObject) : Nat := this.pairs.length

/-- The walk of `buildMap` over the pairs from position `i` on. -/
def buildMapFrom (lastWins : Bool) : List JsonPair → Nat → PairMap → PairMap
  | [], _, m => m
  | p :: ps, i, m => buildMapFrom lastWins ps (i + 1) (m.enter lastWins p.getName (some i))

/-- Modelled from the spec: `JsonObject::buildMap` is declared at Json.hpp line
193 and defined outside the given sources.  Spec 4.3: it "walks the sequence
once and returns a name→Value-reference mapping"; spec 3: "a mapping from name
to a reference into the pair's value slot", and "the index map keeps only one
entry per name (last-wins or first-wins ...)".  Which of the two is left open
by the spec, so the model takes it as the parameter `lastWins`. -/
def buildMap (lastWins : Bool) (this : JsonObject) : PairMap :=
  buildMapFrom lastWins this.pairs 0 []

/-- Dereference a `JsonValue *` taken from this object: the handle in the slot.
Dereferencing `nullptr` or a slot that is gone is not defined. -/
def deref (this : JsonObject) (r : SlotPtr) : Result JsonValue :=
  match r with
  | none => Result.undefined
  | some i =>
    match this.pairs[i]? with
    | some p => Result.ok p.value
    | none => Result.undefined

/-- Add the pairs of `ps` in order, stopping at the first `addPair` that does
not return. -/
def addPairs (this : JsonObject) : List JsonPair → Heap → Result JsonObject × Heap
  | [], h => (Result.ok this, h)
  | p :: ps, h =>
    match this.addPair p h with
    | (Result.ok o, h1) => addPairs o ps h1
    | other => other

/-- The call `q->addPair(p)` on the `JsonObject` living at `q`. -/
def addPairAt (q : Nat) (p : JsonPair) (h : Heap) : Result Unit × Heap :=
  match h.read q with
  | some (Cell.JsonObject o) =>
    match o.addPair p h with
    | (Result.ok o1, h1) => (Result.ok (), h1.write q (Cell.JsonObject o1))
    | (Result.raise x, h1) => (Result.raise x, h1)
    | (Result.undefined, h1) => (Result.undefined, h1)
  | _ => (Result.undefined, h)

/-- The call `q->getPairsSize()` on the `JsonObject` living at `q`. -/
def getPairsSizeAt (q : Nat) (h : Heap) : Result Nat :=
  match h.read q with
  | some (Cell.JsonObject o) => Result.ok o.getPairsSize
  | _ => Result.undefined

/-- The walk of `removePair`: the first pair that `equals(name)` is erased from
the list, which destroys it and so releases its value; the pairs before it and
after it stay. -/
def removePairFrom (fuel : Nat) (name : String) :
    List JsonPair → Heap → Option (Result (List JsonPair) × Heap)
  | [], h => some (Result.ok [], h)
  | p :: ps, h =>
    if p.equals name then
      match JsonValue.release fuel p.value h with
      | none => none
      | some (Result.ok _, h1) => some (Result.ok ps, h1)
      | some (Result.raise x, h1) => some (Result.raise x, h1)
      | some (Result.undefined, h1) => some (Result.undefined, h1)
    else
      match removePairFrom fuel name ps h with
      | some (Result.ok ps1, h1) => some (Result.ok (p :: ps1), h1)
      | other => other

/-- Modelled from the spec: `JsonObject::removePair` is declared at Json.hpp
line 191 and defined outside the given sources.  Spec 4.3: it "removes the
first pair whose name matches; no-op if absent".  The match is
`JsonPair::equals` (Json.hpp, line 176). -/
def removePair (fuel : Nat) (this : JsonObject) (name : String) (h : Heap) :
    Option (Result JsonObject × Heap) :=
  match removePairFrom fuel name this.pairs h with
  | none => none
  | some (Result.ok ps, h1) => some (Result.ok ⟨ps⟩, h1)
  | some (Result.raise x, h1) => some (Result.raise x, h1)
  | some (Result.undefined, h1) => some (Result.undefined, h1)

/-- Copy-construct the pairs of a list in order (the copy of a `std::list`). -/
def copyPairs : List JsonPair → Heap → Result (List JsonPair) × Heap
  | [], h => (Result.ok [], h)
  | p :: ps, h =>
    match JsonPair.copyConstruct p h with
    | (Result.ok e, h1) =>
      match copyPairs ps h1 with
      | (Result.ok es, h2) => (Result.ok (e :: es), h2)
      | other => other
    | (Result.raise x, h1) => (Result.raise x, h1)
    | (Result.undefined, h1) => (Result.undefined, h1)

/-- The implicit copy constructor of `JsonObject`: the copy of `pairs`. -/
def copyConstruct (o : JsonObject) (h : Heap) : Result JsonObject × Heap :=
  match copyPairs o.pairs h with
  | (Result.ok ps, h1) => (Result.ok ⟨ps⟩, h1)
  | (Result.raise x, h1) => (Result.raise x, h1)
  | (Result.undefined, h1) => (Result.undefined, h1)

/-- Destroy the pairs of a list in order (`std::list::erase` of a range):
their values are released. -/
def destroyPairs (fuel : Nat) : List JsonPair → Heap → Option (Result Unit × Heap)
  | [], h => some (Result.ok (), h)
  | p :: ps, h =>
    match JsonValue.release fuel p.value h with
    | some (Result.ok _, h1) => destroyPairs fuel ps h1
    | other => other

/-- The body of the copy assignment of `std::list` from another list: the
nodes both lists have are assigned element by element; then the surplus of the
target is erased, or the rest of the source is copy-constructed behind. -/
def assignEach (fuel : Nat) :
    List JsonPair → List JsonPair → Heap → Option (Result (List JsonPair) × Heap)
  | [], src, h => some (copyPairs src h)
  | o :: os, [], h =>
    match destroyPairs fuel (o :: os) h with
    | none => none
    | some (Result.ok _, h1) => some (Result.ok [], h1)
    | some (Result.raise x, h1) => some (Result.raise x, h1)
    | some (Result.undefined, h1) => some (Result.undefined, h1)
  | o :: os, s :: ss, h =>
    match JsonPair.assignOp fuel o s h with
    | some (Result.ok e, h1) =>
      match assignEach fuel os ss h1 with
      | some (Result.ok es, h2) => some (Result.ok (e :: es), h2)
      | other => other
    | some (Result.raise x, h1) => some (Result.raise x, h1)
    | some (Result.undefined, h1) => some (Result.undefined, h1)
    | none => none

/-- The copy assignment of `std::list`, `pairs = x`: it starts with the guard
`if (this != &x)`, so a list assigned to itself is left as it is and nothing
is released or copied; from another list it runs `assignEach`. -/
def assignPairs (fuel : Nat) (this : List JsonPair) (x : Rhs (List JsonPair)) (h : Heap) :
    Option (Result (List JsonPair) × Heap) :=
  match x with
  | Rhs.self => some (Result.ok this, h)
  | Rhs.other src => assignEach fuel this src h

/-- The implicit copy assignment of `JsonObject`: `pairs = o.pairs`, where
`o.pairs` is the list `pairs` itself exactly when `o` is this object. -/
def assignOp (fuel : Nat) (this : JsonObject) (o : Rhs JsonObject) (h : Heap) :
    Option (Result JsonObject × Heap) :=
  match assignPairs fuel this.pairs (o.map fun x => x.pairs) h with
  | none => none
  | some (Result.ok ps, h1) => some (Result.ok ⟨ps⟩, h1)
  | some (Result.raise x, h1) => some (Result.raise x, h1)
  | some (Result.undefined, h1) => some (Result.undefined, h1)

end JsonObject

/-! ## `Json` -/

/-- The class `Json` (Json.hpp, lines 210-252): its one data member
`JsonObject object`. -/
structure Json where
  object : JsonObject
  deriving DecidableEq, Repr

namespace Json

/-- A `JsonObject` outcome as the outcome of the `Json` method wrapping it. -/
def wrap (r : Result JsonObject × Heap) : Result Json × Heap :=
  match r with
  | (Result.ok o, h1) => (Result.ok ⟨o⟩, h1)
  | (Result.raise x, h1) => (Result.raise x, h1)
  | (Result.undefined, h1) => (Result.undefined, h1)

/-- The `Json` outcome of a method as the outcome on the wrapped object. -/
def unwrap (r : Result Json × Heap) : Result JsonObject × Heap :=
  match r with
  | (Result.ok j, h1) => (Result.ok j.object, h1)
  | (Result.raise x, h1) => (Result.raise x, h1)
  | (Result.undefined, h1) => (Result.undefined, h1)

/-- The constructor `Json() {}` (Json.hpp, line 224): an empty object. -/
def construct : Json := ⟨⟨[]⟩⟩

/-- The constructor `Json(const Json &json) : object(json.object) {}`
(Json.hpp, line 228). -/
def copyConstruct (json : Json) (h : Heap) : Result Json × Heap :=
  wrap (JsonObject.copyConstruct json.object h)

/-- The constructor `Json(const JsonObject &object) : object(object) {}`
(Json.hpp, line 229). -/
def ofObject (object : JsonObject) (h : Heap) : Result Json × Heap :=
  wrap (JsonObject.copyConstruct object h)

/-- `addPair` (Json.hpp, line 237): `this->object.addPair(p)`. -/
def addPair (this : Json) (p : JsonPair) (h : Heap) : Result Json × Heap :=
  wrap (this.object.addPair p h)

/-- `removePair` (Json.hpp, line 238): `this->object.removePair(name)`. -/
def removePair (fuel : Nat) (this : Json) (name : String) (h : Heap) :
    Option (Result Json × Heap) :=
  (this.object.removePair fuel name h).map wrap

/-- `operator =` (Json.hpp, line 240): `this->object = json.object; return
*this;`.  `json.object` is `this->object` itself exactly when `json` is this
document (`d = d`), and then the assignment of the object returns at once. -/
def assignOp (fuel : Nat) (this : Json) (json : Rhs Json) (h : Heap) :
    Option (Result Json × Heap) :=
  (this.object.assignOp fuel (json.map fun j => j.object) h).map wrap

/-- `buildMap` (Json.hpp, line 242): `this->object.buildMap()`. -/
def buildMap (lastWins : Bool) (this : Json) : PairMap :=
  this.object.buildMap lastWins

/-- The traversal `begin()` .. `end()` (Json.hpp, lines 244-247), which are
those of `this->object`. -/
def traverse (this : Json) : List JsonPair := this.object.traverse

/-- `front` (Json.hpp, lines 248-249): `this->object.front()`. -/
def front (this : Json) : Result JsonPair := this.object.front

/-- `back` (Json.hpp, lines 250-251): `this->object.back()`. -/
def back (this : Json) : Result JsonPair := this.object.back

end Json

/-! ## Numbers as text

The parser and the serializer are declared in Json.hpp (`open`,
`openFromMemory`, `toString`, `valueToString`, ...) and defined outside the
given sources.  What follows is the parser of spec 4.5. -/

namespace Double

/-- Modelled from the spec: the binary exponent of `num / den` (the `k` with
`2 ^ k ≤ num / den < 2 ^ (k + 1)`), found by doubling one side; part of the
conversion of a numeric literal to a double, which is outside the given
sources. -/
def binaryExponent : Nat → Nat → Nat → Int → Int
  | 0, _, _, k => k
  | fuel + 1, num, den, k =>
    if 2 * den ≤ num then binaryExponent fuel num (2 * den) (k + 1)
    else if num < den then binaryExponent fuel (2 * num) den (k - 1)
    else k

/-- Modelled from the spec: `num / den` rounded to the nearest natural number,
ties to even (the IEEE 754 default rounding). -/
def roundNearestEven (num den : Nat) : Nat :=
  let q := num / den
  let r := num % den
  if den < 2 * r then q + 1
  else if 2 * r = den then (if q % 2 = 0 then q else q + 1)
  else q

/-- Modelled from the spec: the double a decimal literal denotes.  Spec 8 has
the literal `+123e-1` yield "a Number equal to `12.3`": the value
`m * 10 ^ e` of the literal, correctly rounded to binary64 (subnormals and
overflow to infinity included), as the C library conversion does. -/
def ofDecimal (negative : Bool) (m : Nat) (e : Int) : Double :=
  let sign : Nat := if negative then 2 ^ 63 else 0
  if m = 0 then ⟨sign⟩
  else
    let num : Nat := if 0 ≤ e then m * 10 ^ e.toNat else m
    let den : Nat := if 0 ≤ e then 1 else 10 ^ (-e).toNat
    let k : Int := binaryExponent 2300 num den 0
    if k < -1022 then
      ⟨sign + roundNearestEven (num * 2 ^ 1074) den⟩
    else
      let s : Int := 52 - k
      let q : Nat := roundNearestEven (num * 2 ^ s.toNat) (den * 2 ^ (-s).toNat)
      let k1 : Int := if q = 2 ^ 53 then k + 1 else k
      let q1 : Nat := if q = 2 ^ 53 then 2 ^ 52 else q
      if 1023 < k1 then ⟨sign + 2047 * 2 ^ 52⟩
      else ⟨sign + (k1 + 1023).toNat * 2 ^ 52 + (q1 - 2 ^ 52)⟩

end Double

/-! ## The parser -/

namespace Parser

/-- Modelled from the spec: the characters the parser skips between tokens
(spec 4.5: "skip whitespace"). -/
def isWhitespace (c : Char) : Bool :=
  c = ' ' ∨ c = '\t' ∨ c = '\n' ∨ c = '\r'

/-- Modelled from the spec: spec 4.5, "Start → (skip whitespace)". -/
def skipWhitespace : List Char → List Char
  | [] => []
  | c :: cs => if isWhitespace c then skipWhitespace cs else c :: cs

/-- Modelled from the spec: the text `literal` is next in the input (the
spellings `true`, `false`, `null`). -/
def expect : List Char → List Char → Option (List Char)
  | [], cs => some cs
  | _ :: _, [] => none
  | l :: ls, c :: cs => if l = c then expect ls cs else none

/-- Modelled from the spec: a run of decimal digits ("digits" of spec 4.5):
its value continued from `acc`, its length continued from `n`, and the rest of
the input. -/
def readDigits : List Char → Nat → Nat → Nat × Nat × List Char
  | [], acc, n => (acc, n, [])
  | c :: cs, acc, n =>
    if c.isDigit then readDigits cs (acc * 10 + (c.toNat - '0'.toNat)) (n + 1)
    else (acc, n, c :: cs)

/-- Modelled from the spec: an optional sign; `true` for `-`. -/
def readSign : List Char → Bool × List Char
  | [] => (false, [])
  | c :: cs => if c = '-' then (true, cs) else if c = '+' then (false, cs) else (false, c :: cs)

/-- Modelled from the spec: the optional exponent of a numeric literal (spec
4.5: "`e`/`E`, optional sign, digits").  An exponent marker without digits is a
malformed number. -/
def readExponent : List Char → Option (Int × List Char)
  | [] => some (0, [])
  | c :: cs =>
    if c = 'e' ∨ c = 'E' then
      let s := readSign cs
      let d := readDigits s.2 0 0
      if d.2.1 = 0 then none
      else some (if s.1 then -(d.1 : Int) else (d.1 : Int), d.2.2)
    else some (0, c :: cs)

/-- Modelled from the spec: the optional fractional part, continuing the
digits read so far: the digits with the fraction appended, the number of
fraction digits, the rest.  A point without digits is a malformed number. -/
def readFraction (acc : Nat) : List Char → Option (Nat × Nat × List Char)
  | [] => some (acc, 0, [])
  | c :: cs =>
    if c = '.' then
      let d := readDigits cs acc 0
      if d.2.1 = 0 then none else some d
    else some (acc, 0, c :: cs)

/-- Modelled from the spec: a numeric literal (spec 4.5: an optional `+` or
`-`, "digits, an optional fractional part, and an optional exponent") and the
double it denotes. -/
def parseNumber (cs : List Char) : Option (Double × List Char) :=
  let s := readSign cs
  let i := readDigits s.2 0 0
  if i.2.1 = 0 then none
  else
    match readFraction i.1 i.2.2 with
    | none => none
    | some f =>
      match readExponent f.2.2 with
      | none => none
      | some x => some (Double.ofDecimal s.1 f.1 (x.1 - (f.2.1 : Int)), x.2)

/-- Modelled from the spec: the value of a hexadecimal digit. -/
def hexValue (c : Char) : Option Nat :=
  if c.isDigit then some (c.toNat - '0'.toNat)
  else if 'a'.toNat ≤ c.toNat ∧ c.toNat ≤ 'f'.toNat then some (c.toNat - 'a'.toNat + 10)
  else if 'A'.toNat ≤ c.toNat ∧ c.toNat ≤ 'F'.toNat then some (c.toNat - 'A'.toNat + 10)
  else none

/-- Modelled from the spec: the character a one-letter escape stands for (spec
4.5: "backslash-escaped `\"`, `\\`, and the standard JSON escape set"). -/
def unescape (c : Char) : Option Char :=
  if c = '"' then some '"'
  else if c = '\\' then some '\\'
  else if c = '/' then some '/'
  else if c = 'b' then some (Char.ofNat 8)
  else if c = 'f' then some (Char.ofNat 12)
  else if c = 'n' then some '\n'
  else if c = 'r' then some '\r'
  else if c = 't' then some '\t'
  else none

/-- Modelled from the spec: the code unit of a `\uXXXX` escape, kept as one
character. -/
def unescapeUnicode : List Char → Option (Char × List Char)
  | a :: b :: c :: d :: cs =>
    match hexValue a, hexValue b, hexValue c, hexValue d with
    | some x, some y, some z, some w => some (Char.ofNat (((x * 16 + y) * 16 + z) * 16 + w), cs)
    | _, _, _, _ => none
  | _ => none

/-- Modelled from the spec: the body of a string literal after its opening
quote, up to the closing quote; `acc` holds the characters read so far, last
first.  An unterminated string or an unknown escape is a parse failure.  The
fuel is the length of the input at most. -/
def parseStringBody : Nat → List Char → List Char → Option (String × List Char)
  | 0, _, _ => none
  | _ + 1, [], _ => none
  | fuel + 1, c :: cs, acc =>
    if c = '"' then some (String.mk acc.reverse, cs)
    else if c = '\\' then
      match cs with
      | [] => none
      | e :: cs1 =>
        if e = 'u' then
          match unescapeUnicode cs1 with
          | some (u, cs2) => parseStringBody fuel cs2 (u :: acc)
          | none => none
        else
          match unescape e with
          | some u => parseStringBody fuel cs1 (u :: acc)
          | none => none
    else parseStringBody fuel cs (c :: acc)

/-- Modelled from the spec: a string literal (a name, or a String value). -/
def parseString (cs : List Char) : Option (String × List Char) :=
  match cs with
  | [] => none
  | c :: rest => if c = '"' then parseStringBody (rest.length + 1) rest [] else none

/-- Modelled from the spec: a new String value (`JsonValue::create`). -/
def newString (s : String) (h : Heap) : Option (JsonValue × Heap) :=
  match JsonValue.createStd s h with
  | some (Result.ok v, h1) => some (v, h1)
  | _ => none

/-- Modelled from the spec: a new Boolean value (`JsonValue::create`). -/
def newBoolean (b : Bool) (h : Heap) : Option (JsonValue × Heap) :=
  match JsonValue.createBool b h with
  | some (Result.ok v, h1) => some (v, h1)
  | _ => none

/-- Modelled from the spec: a new Number value (`JsonValue::create`). -/
def newNumber (d : Double) (h : Heap) : Option (JsonValue × Heap) :=
  match JsonValue.createDouble d h with
  | some (Result.ok v, h1) => some (v, h1)
  | _ => none

/-- Modelled from the spec: a new empty Array value (a default-constructed
value, then `createArray`) and the address of its container. -/
def newArray (h : Heap) : Option (JsonValue × Nat × Heap) :=
  let v0 := JsonValue.construct h
  match JsonValue.createArray 1 v0.1 v0.2 with
  | some (Result.ok v, h1) =>
    match v.getArray h1 with
    | Result.ok arr => some (v, arr, h1)
    | _ => none
  | _ => none

/-- Modelled from the spec: a new empty Object value (a default-constructed
value, then `createObject`) and the address of its container. -/
def newObject (h : Heap) : Option (JsonValue × Nat × Heap) :=
  let v0 := JsonValue.construct h
  match JsonValue.createObject 1 v0.1 v0.2 with
  | some (Result.ok v, h1) =>
    match v.getObject h1 with
    | Result.ok obj => some (v, obj, h1)
    | _ => none
  | _ => none

/-- Modelled from the spec: the parsed element `v` goes into the array with
`put`, and the parser's own handle of it is destroyed: the array is then its
one owner. -/
def storeElement (a : JsonArray) (v : JsonValue) (h : Heap) : Option (JsonArray × Heap) :=
  match a.put v h with
  | (Result.ok a1, h1) =>
    match JsonValue.release 1 v h1 with
    | some (Result.ok _, h2) => some (a1, h2)
    | _ => none
  | _ => none

/-- Modelled from the spec: the parsed member goes into the object with
`addPair`, and the parser's own handle of its value is destroyed. -/
def storeMember (o : JsonObject) (name : String) (v : JsonValue) (h : Heap) :
    Option (JsonObject × Heap) :=
  match o.addPair ⟨name, v⟩ h with
  | (Result.ok o1, h1) =>
    match JsonValue.release 1 v h1 with
    | some (Result.ok _, h2) => some (o1, h2)
    | _ => none
  | _ => none

mutual

/-- Modelled from the spec: spec 4.5, "dispatch on lookahead character into
one of `String | Number | Object | Array | True | False | Null`".  The result
is the handle of the parsed value, the rest of the input, and the heap.  For an
Array or Object the container is filled while its elements are parsed and is
stored behind the value when its closing bracket is read.  The format-AST node
the real parser attaches is an external collaborator and is left null.  `none`
is a parse failure; the fuel is the length of the input at most. -/
def parseValue : Nat → List Char → Heap → Option (JsonValue × List Char × Heap)
  | 0, _, _ => none
  | fuel + 1, cs, h =>
    match skipWhitespace cs with
    | [] => none
    | c :: rest =>
      if c = '"' then
        match parseString (c :: rest) with
        | some (s, r) => (newString s h).map fun x => (x.1, r, x.2)
        | none => none
      else if c = '{' then
        match newObject h with
        | some (v, obj, h1) =>
          match parseMembers fuel ⟨[]⟩ (skipWhitespace rest) h1 with
          | some (o, r, h2) => some (v, r, h2.write obj (Cell.JsonObject o))
          | none => none
        | none => none
      else if c = '[' then
        match newArray h with
        | some (v, arr, h1) =>
          match parseElements fuel ⟨[]⟩ (skipWhitespace rest) h1 with
          | some (a, r, h2) => some (v, r, h2.write arr (Cell.JsonArray a))
          | none => none
        | none => none
      else if c = 't' then
        match expect "true".data (c :: rest) with
        | some r => (newBoolean true h).map fun x => (x.1, r, x.2)
        | none => none
      else if c = 'f' then
        match expect "false".data (c :: rest) with
        | some r => (newBoolean false h).map fun x => (x.1, r, x.2)
        | none => none
      else if c = 'n' then
        match expect "null".data (c :: rest) with
        | some r => some ((JsonValue.construct h).1, r, (JsonValue.construct h).2)
        | none => none
      else
        match parseNumber (c :: rest) with
        | some (d, r) => (newNumber d h).map fun x => (x.1, r, x.2)
        | none => none

/-- Modelled from the spec: spec 4.5, "`Array` recurses into `Value* (Comma
Value)*`".  The input is just behind `[` or `,`; `a` holds the elements read
so far. -/
def parseElements : Nat → JsonArray → List Char → Heap →
    Option (JsonArray × List Char × Heap)
  | 0, _, _, _ => none
  | fuel + 1, a, cs, h =>
    match cs with
    | [] => none
    | c :: rest =>
      if c = ']' ∧ a.array = [] then some (a, rest, h)
      else
        match parseValue fuel (c :: rest) h with
        | none => none
        | some (v, r, h1) =>
          match storeElement a v h1 with
          | none => none
          | some (a1, h2) =>
            match skipWhitespace r with
            | [] => none
            | d :: r1 =>
              if d = ',' then parseElements fuel a1 (skipWhitespace r1) h2
              else if d = ']' then some (a1, r1, h2)
              else none

/-- Modelled from the spec: spec 4.5, "`Object` recurses into `Pair* → Name
Colon Value (Comma Pair)*`".  The input is just behind `{` or `,`; `o` holds
the members read so far. -/
def parseMembers : Nat → JsonObject → List Char → Heap →
    Option (JsonObject × List Char × Heap)
  | 0, _, _, _ => none
  | fuel + 1, o, cs, h =>
    match cs with
    | [] => none
    | c :: rest =>
      if c = '}' ∧ o.pairs = [] then some (o, rest, h)
      else
        match parseString (c :: rest) with
        | none => none
        | some (name, r) =>
          match skipWhitespace r with
          | [] => none
          | colon :: r1 =>
            if colon = ':' then
              match parseValue fuel r1 h with
              | none => none
              | some (v, r2, h1) =>
                match storeMember o name v h1 with
                | none => none
                | some (o1, h2) =>
                  match skipWhitespace r2 with
                  | [] => none
                  | d :: r3 =>
                    if d = ',' then parseMembers fuel o1 (skipWhitespace r3) h2
                    else if d = '}' then some (o1, r3, h2)
                    else none
            else none

end

end Parser

namespace Json

/-- Modelled from the spec: `Json::openFromMemory` is declared at Json.hpp line
232 and defined outside the given sources.  Spec 4.4: it parses the bytes
"into the root Object; returns a success flag (does not raise) on malformed
input", "leaving the document in an unspecified/empty state on failure".  The
document is empty before, as in the constructor that calls it; the text is a
root object, with nothing but whitespace behind it. -/
def openFromMemory (data : String) (length : Nat) (h : Heap) : Bool × Json × Heap :=
  match Parser.skipWhitespace (data.data.take length) with
  | [] => (false, construct, h)
  | c :: rest =>
    if c = '{' then
      match Parser.parseMembers (length + 1) ⟨[]⟩ (Parser.skipWhitespace rest) h with
      | some (o, r, h1) =>
        if Parser.skipWhitespace r = [] then (true, ⟨o⟩, h1) else (false, construct, h1)
      | none => (false, construct, h)
    else (false, construct, h)

/-- The constructor `Json(const void *data, size_t length)` (Json.hpp, line
227): `(void)openFromMemory(data, length)`. -/
def ofMemory (data : String) (length : Nat) (h : Heap) : Json × Heap :=
  (openFromMemory data length h).2

end Json

/-- The text of `jsonFile` in src/test/file/TestJson.cpp (lines 5-17); the
braces are written as the escapes `\x7b` and `\x7d`. -/
def jsonFile : String :=
  "\x7b\n\t\"key1\": \"\\\"value1\\\"\",\n\t\"key2\": [ [ null, null ] ],\n\t\"obj2\":\n\t\x7b\n\t\t\"key3\":\n\t\t\x7b\n\t\t\t\"key33\": true\n\t\t\x7d\n\t\x7d,\n\t\"key4\": +123e-1\n\x7d"

/-! ## Navigation, as in the test program -/

/-- The string a `std::string &` refers to. -/
def Heap.readString (h : Heap) (p : Nat) : Result String :=
  match h.read p with
  | some (Cell.string s) => Result.ok s
  | _ => Result.undefined

/-- The expression `*map[name]` for `map = buildMap()` of this object: the
value of the member `name` (TestJson.cpp, lines 28-34). -/
def JsonObject.member (lastWins : Bool) (this : JsonObject) (name : String) :
    Result JsonValue :=
  this.deref ((this.buildMap lastWins).subscript name).1

/-- The expression `*q->buildMap()[name]` on the `JsonObject` living at `q`. -/
def JsonObject.memberAt (lastWins : Bool) (q : Nat) (name : String) (h : Heap) :
    Result JsonValue :=
  match h.read q with
  | some (Cell.JsonObject o) => o.member lastWins name
  | _ => Result.undefined

/-- The document of the test program (TestJson.cpp, line 23):
`Json json(jsonFile.data(), jsonFile.length());`, as the outcome of the
`openFromMemory` the constructor calls, in the empty heap. -/
def jsonFileParsed : Bool × Json × Heap :=
  Json.openFromMemory jsonFile jsonFile.length Heap.empty

/-! ## Vocabulary of the statements -/

/-- Every object of `h` other than a reference count is the same object in
`h1`: strings, doubles, the `Array`/`Object` records and the containers (and
with them the handles the containers hold) read as before. -/
def Heap.PayloadsKept (h h1 : Heap) : Prop :=
  ∀ p c, h.read p = some c → (∀ k, c ≠ Cell.int k) → h1.read p = some c

/-- The handle `v` is live with count `n`, and destroying it destroys no
container: its payload is shared (the count does not drop to zero), or it is a
Null, a Boolean, a String or a Number. -/
def JsonValue.Plain (v : JsonValue) (h : Heap) (n : Int) : Prop :=
  h.read v.refCount = some (Cell.int n) ∧
  (n - 1 ≠ 0 ∨ v.type = JsonType.NULL_VALUE ∨ v.type = JsonType.BOOLEAN ∨
    (v.type = JsonType.STRING ∧ ∃ s, h.read v.value = some (Cell.string s)) ∨
    (v.type = JsonType.NUMBER ∧ ∃ d, h.read v.value = some (Cell.double d)))

/-- How many pairs of the list hold a handle whose count is the cell at `r`. -/
def JsonObject.handlesOn (ps : List JsonPair) (r : Nat) : Nat :=
  ps.countP fun p => p.value.refCount = r

/-- Every value of the pairs is live and shared with a handle outside the
list: its count is larger than the number of handles the list holds on it.
Destroying the whole list then frees nothing. -/
def JsonObject.SharedOutside (ps : List JsonPair) (h : Heap) : Prop :=
  ∀ p ∈ ps, ∃ n, h.read p.value.refCount = some (Cell.int n) ∧
    (JsonObject.handlesOn ps p.value.refCount : Int) < n

/-- A heap with one payload cell and its reference count of 1: what a freshly
created String or Number handle `⟨1, 2, _⟩` owns. -/
def Heap.single (c : Cell) : Heap :=
  ((Heap.empty.alloc c).2.alloc (Cell.int 1)).2

/-- A heap with an empty array (container at 1, `Array` record at 2, count at
3), owned by the handle `⟨2, 3, ARRAY⟩`, and a Number (double at 4, count at
5), owned by `⟨4, 5, NUMBER⟩`. -/
def Heap.withArray (d : Double) : Heap :=
  (((((Heap.empty.alloc (Cell.JsonArray ⟨[]⟩)).2.alloc (Cell.Array 1 nullptr)).2.alloc
    (Cell.int 1)).2.alloc (Cell.double d)).2.alloc (Cell.int 1)).2

/-- The doubles `1.0` and `2.0`, by their IEEE 754 bit patterns. -/
def Double.one : Double := ⟨0x3FF0000000000000⟩

/-- See `Double.one`. -/
def Double.two : Double := ⟨0x4000000000000000⟩

/-- A heap with two Numbers: a double at 1 with its count at 2, owned by
`⟨1, 2, NUMBER⟩`, and a double at 3 with its count at 4, owned by
`⟨3, 4, NUMBER⟩`. -/
def Heap.withNumbers (d1 d2 : Double) : Heap :=
  ((((Heap.empty.alloc (Cell.double d1)).2.alloc (Cell.int 1)).2.alloc
    (Cell.double d2)).2.alloc (Cell.int 1)).2

/-! ## Heap lemmas -/

theorem Heap.read_write_same (h : Heap) (p : Nat) (c c0 : Cell)
    (hp : h.read p = some c0) : (h.write p c).read p = some c := by
  unfold Heap.read at hp ⊢
  by_cases hb : p = 0 ∨ h.next ≤ p
  · simp [hb] at hp
  · simp [Heap.write, hb]

theorem Heap.read_write_other (h : Heap) (p q : Nat) (c : Cell) (hq : q ≠ p) :
    (h.write p c).read q = h.read q := by
  simp [Heap.read, Heap.write, hq]

theorem Heap.read_write_of_ne (h : Heap) (p r : Nat) (x c : Cell)
    (hp : h.read p = some c) (hr : h.read r ≠ some c) : (h.write r x).read p = some c := by
  have hne : p ≠ r := by
    intro he
    rw [he] at hp
    exact hr hp
  rw [Heap.read_write_other _ _ _ _ hne, hp]

theorem Heap.read_lt (h : Heap) (p : Nat) (c : Cell) (hp : h.read p = some c) :
    p ≠ 0 ∧ p < h.next := by
  unfold Heap.read at hp
  by_cases hb : p = 0 ∨ h.next ≤ p
  · simp [hb] at hp
  · push_neg at hb
    exact hb

theorem Heap.alloc_fst (h : Heap) (c : Cell) : (h.alloc c).1 = max h.next 1 := rfl

theorem Heap.alloc_next (h : Heap) (c : Cell) : (h.alloc c).2.next = max h.next 1 + 1 := rfl

theorem Heap.read_alloc_new (h : Heap) (c : Cell) : (h.alloc c).2.read (h.alloc c).1 = some c := by
  have h1 : 1 ≤ max h.next 1 := le_max_right _ _
  simp only [Heap.read, Heap.alloc]
  generalize max h.next 1 = m at h1
  have hb : ¬ (m = 0 ∨ m + 1 ≤ m) := by omega
  simp only [hb, if_false, if_true]

theorem Heap.read_alloc_old (h : Heap) (c c0 : Cell) (p : Nat) (hp : h.read p = some c0) :
    (h.alloc c).2.read p = some c0 := by
  obtain ⟨h0, hlt⟩ := Heap.read_lt h p c0 hp
  have h1 : h.next ≤ max h.next 1 := le_max_left _ _
  have hb0 : ¬ (p = 0 ∨ h.next ≤ p) := by omega
  unfold Heap.read at hp
  simp only [hb0, if_false] at hp
  simp only [Heap.read, Heap.alloc]
  generalize max h.next 1 = m at h1
  have hne : p ≠ m := by omega
  have hb : ¬ (p = 0 ∨ m + 1 ≤ p) := by omega
  simp [hne, hb, hp]

theorem Heap.read_free_other (h : Heap) (p q : Nat) (hq : q ≠ p) :
    (h.free p).read q = h.read q := by
  simp [Heap.read, Heap.free, hq]

theorem Heap.read_free_same (h : Heap) (p : Nat) : (h.free p).read p = none := by
  simp [Heap.read, Heap.free]

theorem JsonValue.copy_ok (v : JsonValue) (h : Heap) (n : Int)
    (hr : h.read v.refCount = some (Cell.int n)) :
    v.copy h = (Result.ok v, h.write v.refCount (Cell.int (n + 1))) := by
  simp [JsonValue.copy, hr]

theorem Heap.PayloadsKept.refl (h : Heap) : h.PayloadsKept h :=
  fun _ _ hp _ => hp

theorem Heap.PayloadsKept.trans {h h1 h2 : Heap} (k1 : h.PayloadsKept h1)
    (k2 : h1.PayloadsKept h2) : h.PayloadsKept h2 :=
  fun p c hp hc => k2 p c (k1 p c hp hc) hc

theorem Heap.PayloadsKept.write_count (h : Heap) (r : Nat) (n m : Int)
    (hr : h.read r = some (Cell.int n)) : h.PayloadsKept (h.write r (Cell.int m)) := by
  intro p c hp hc
  apply Heap.read_write_of_ne h p r _ c hp
  rw [hr]
  intro he
  injection he with he
  exact hc n he.symm

theorem Heap.PayloadsKept.free_count (h : Heap) (r : Nat) (n : Int)
    (hr : h.read r = some (Cell.int n)) : h.PayloadsKept (h.free r) := by
  intro p c hp hc
  have hne : p ≠ r := by
    intro he
    rw [he, hr] at hp
    injection hp with hp
    exact hc n hp.symm
  rw [Heap.read_free_other _ _ _ hne, hp]

theorem Heap.PayloadsKept.alloc (h : Heap) (c : Cell) : h.PayloadsKept (h.alloc c).2 :=
  fun p c0 hp _ => Heap.read_alloc_old h c c0 p hp

/-- Writing a count keeps every count of the heap a count. -/
theorem Heap.write_count_counts (h : Heap) (r0 : Nat) (n0 x : Int)
    (hr0 : h.read r0 = some (Cell.int n0)) (r : Nat)
    (hr : ∃ k, h.read r = some (Cell.int k)) :
    ∃ k, (h.write r0 (Cell.int x)).read r = some (Cell.int k) := by
  obtain ⟨k, hk⟩ := hr
  by_cases he : r = r0
  · exact ⟨x, by rw [he]; exact Heap.read_write_same _ _ _ _ hr0⟩
  · exact ⟨k, by rw [Heap.read_write_other _ _ _ _ he, hk]⟩

/-- A handle whose payload is shared (the count does not reach zero) is
released by writing the decremented count, with one unit of fuel. -/
theorem JsonValue.release_shared (fuel : Nat) (a : JsonValue) (h : Heap) (n : Int)
    (hr : h.read a.refCount = some (Cell.int n)) (hn : n - 1 ≠ 0) :
    JsonValue.release (fuel + 1) a h
      = some (Result.ok (), h.write a.refCount (Cell.int (n - 1))) := by
  simp [JsonValue.release, hr, hn]

/-- Assigning to a freshly default-constructed handle: the fresh count is
freed, the handle gets the fields of `a`, the count of `a` goes up by one. -/
theorem JsonValue.assign_construct (fuel : Nat) (a : JsonValue) (h : Heap) (n : Int)
    (hr : h.read a.refCount = some (Cell.int n)) :
    ∃ h1, JsonValue.assignOp (fuel + 1) (JsonValue.construct h).1 a (JsonValue.construct h).2
        = some (Result.ok a, h1) ∧
      h.PayloadsKept h1 ∧ h1.read a.refCount = some (Cell.int (n + 1)) ∧
      ∀ r m, h.read r = some (Cell.int m) → r ≠ a.refCount → h1.read r = some (Cell.int m) := by
  have hnew := Heap.read_alloc_new h (Cell.int 1)
  have hold := Heap.read_alloc_old h (Cell.int 1) _ _ hr
  obtain ⟨hnz, hlt⟩ := Heap.read_lt h _ _ hr
  have hfst := Heap.alloc_fst h (Cell.int 1)
  have hge : h.next ≤ max h.next 1 := le_max_left _ _
  have hne : a.refCount ≠ (h.alloc (Cell.int 1)).1 := by
    rw [hfst]
    generalize max h.next 1 = m at hge ⊢
    omega
  obtain ⟨r0, hr0⟩ : ∃ r0, r0 = (h.alloc (Cell.int 1)).1 := ⟨_, rfl⟩
  obtain ⟨h0, hh0⟩ : ∃ h0, h0 = (h.alloc (Cell.int 1)).2 := ⟨_, rfl⟩
  rw [← hr0, ← hh0] at hnew
  rw [← hh0] at hold
  rw [← hr0] at hne
  have hk0 : h.PayloadsKept h0 := hh0 ▸ Heap.PayloadsKept.alloc h (Cell.int 1)
  have hw : (h0.write r0 (Cell.int 0)).read r0 = some (Cell.int 0) :=
    Heap.read_write_same _ _ _ _ hnew
  have hA : ((h0.write r0 (Cell.int 0)).free r0).read a.refCount = some (Cell.int n) := by
    rw [Heap.read_free_other _ _ _ hne, Heap.read_write_other _ _ _ _ hne, hold]
  have hrel : JsonValue.release (fuel + 1) (JsonValue.construct h).1 (JsonValue.construct h).2
      = some (Result.ok (), (h0.write r0 (Cell.int 0)).free r0) := by
    simp [JsonValue.release, JsonValue.construct, ← hr0, ← hh0, hnew]
  refine ⟨((h0.write r0 (Cell.int 0)).free r0).write a.refCount (Cell.int (n + 1)), ?_, ?_, ?_, ?_⟩
  · simp [JsonValue.assignOp, JsonValue.assign, hrel, JsonValue.afterRelease,
      JsonValue.copy_ok _ _ _ hA]
  · exact hk0.trans ((Heap.PayloadsKept.write_count _ _ _ 0 hnew).trans
      ((Heap.PayloadsKept.free_count _ _ _ hw).trans
        (Heap.PayloadsKept.write_count _ _ _ _ hA)))
  · exact Heap.read_write_same _ _ _ _ hA
  · intro r m hrm hra
    obtain ⟨hrz, hltr⟩ := Heap.read_lt h _ _ hrm
    have hner : r ≠ r0 := by
      rw [hr0, hfst]
      generalize max h.next 1 = m at hge ⊢
      omega
    rw [Heap.read_write_other _ _ _ _ hra, Heap.read_free_other _ _ _ hner,
      Heap.read_write_other _ _ _ _ hner, hh0]
    exact Heap.read_alloc_old h (Cell.int 1) _ _ hrm

theorem JsonValue.afterRelease_shared (fuel : Nat) (a : JsonValue) (h : Heap) (n : Int)
    (k : Heap → Result JsonValue × Heap)
    (hr : h.read a.refCount = some (Cell.int n)) (hn : n - 1 ≠ 0) :
    JsonValue.afterRelease (JsonValue.release (fuel + 1) a h) k
      = some (k (h.write a.refCount (Cell.int (n - 1)))) := by
  rw [JsonValue.release_shared fuel a h n hr hn]
  rfl

/-- Re-creating a handle whose old payload is shared: the new String lives at
an address that held nothing before, and no old payload is touched. -/
theorem JsonValue.createString_shared (fuel : Nat) (a : JsonValue) (h : Heap) (n : Int)
    (str : String) (length : Nat)
    (hr : h.read a.refCount = some (Cell.int n)) (hn : n - 1 ≠ 0) :
    ∃ a1 h1, a.createString (fuel + 1) str length h = some (Result.ok a1, h1) ∧
      a1.type = JsonType.STRING ∧
      h1.read a1.value = some (Cell.string (String.mk (str.data.take length))) ∧
      h.read a1.value = none ∧ h1.read a1.refCount = some (Cell.int 1) ∧
      h.PayloadsKept h1 := by
  unfold JsonValue.createString
  rw [JsonValue.afterRelease_shared fuel a h n _ hr hn]
  refine ⟨_, _, rfl, ?_, ?_, ?_, ?_, ?_⟩
  · rfl
  · exact Heap.read_alloc_old _ _ _ _ (Heap.read_alloc_new _ _)
  · have hge : h.next ≤ max h.next 1 := le_max_left _ _
    simp only [Heap.alloc, Heap.write, Heap.read]
    generalize max h.next 1 = m at hge
    have hb : m = 0 ∨ h.next ≤ m := Or.inr hge
    simp [hb]
  · exact Heap.read_alloc_new _ _
  · exact (Heap.PayloadsKept.write_count h _ _ _ hr).trans
      ((Heap.PayloadsKept.alloc _ _).trans (Heap.PayloadsKept.alloc _ _))

/-- The ways of copying a live handle (the copy constructor, assignment to a
default-constructed handle, assignment to a handle whose payload is shared)
give a handle with the three fields of the source, keep every payload, and
keep every count a count. -/
theorem JsonValue.copy_either (fuel : Nat) (a b : JsonValue) (h h1 : Heap) (n : Int)
    (hr : h.read a.refCount = some (Cell.int n))
    (hc : a.copyConstruct h = (Result.ok b, h1) ∨
      JsonValue.assignOp (fuel + 1) (JsonValue.construct h).1 a (JsonValue.construct h).2
        = some (Result.ok b, h1) ∨
      ∃ b0 k, h.read b0.refCount = some (Cell.int k) ∧ 2 ≤ k ∧
        JsonValue.assignOp (fuel + 1) b0 a h = some (Result.ok b, h1)) :
    b = a ∧ h.PayloadsKept h1 ∧
      ∀ r m, h.read r = some (Cell.int m) → ∃ m1, h1.read r = some (Cell.int m1) := by
  rcases hc with hc | hc | ⟨b0, k, hb0, hk2, hc⟩
  · unfold JsonValue.copyConstruct at hc
    rw [JsonValue.copy_ok a h n hr] at hc
    injection hc with hb hh
    injection hb with hb
    subst hb hh
    refine ⟨rfl, Heap.PayloadsKept.write_count h _ _ _ hr, ?_⟩
    intro r m hrm
    by_cases he : r = a.refCount
    · exact ⟨n + 1, by rw [he]; exact Heap.read_write_same _ _ _ _ hr⟩
    · exact ⟨m, by rw [Heap.read_write_other _ _ _ _ he, hrm]⟩
  · obtain ⟨h1', hasg, hk, hcnt, hoth⟩ := JsonValue.assign_construct fuel a h n hr
    rw [hasg] at hc
    injection hc with hc
    injection hc with hb hh
    injection hb with hb
    subst hb hh
    refine ⟨rfl, hk, ?_⟩
    intro r m hrm
    by_cases he : r = a.refCount
    · exact ⟨n + 1, by rw [he]; exact hcnt⟩
    · exact ⟨m, hoth r m hrm he⟩
  · have hk1 : k - 1 ≠ 0 := by omega
    obtain ⟨m1, hm1⟩ := Heap.write_count_counts h b0.refCount k (k - 1) hb0 a.refCount ⟨n, hr⟩
    unfold JsonValue.assignOp JsonValue.assign at hc
    rw [JsonValue.afterRelease_shared fuel b0 h k _ hb0 hk1, JsonValue.copy_ok _ _ _ hm1] at hc
    injection hc with hc
    injection hc with hb hh
    injection hb with hb
    subst hb hh
    refine ⟨rfl, (Heap.PayloadsKept.write_count h _ _ (k - 1) hb0).trans
      (Heap.PayloadsKept.write_count _ _ _ _ hm1), ?_⟩
    intro r m hrm
    exact Heap.write_count_counts _ _ _ _ hm1 r
      (Heap.write_count_counts h _ _ _ hb0 r ⟨m, hrm⟩)

/-- `p->put(v)` on a live array with a live `v`: the container at `p` gets `v`
appended, and nothing else but the count of `v` changes. -/
theorem JsonArray.putAt_ok (p : Nat) (A : JsonArray) (v : JsonValue) (h : Heap) (m : Int)
    (hp : h.read p = some (Cell.JsonArray A)) (hv : h.read v.refCount = some (Cell.int m)) :
    ∃ h2, JsonArray.putAt p v h = (Result.ok (), h2) ∧
      h2.read p = some (Cell.JsonArray ⟨A.array ++ [v]⟩) ∧
      ∀ q c, h.read q = some c → q ≠ p → (∀ k, c ≠ Cell.int k) → h2.read q = some c := by
  have hp1 : (h.write v.refCount (Cell.int (m + 1))).read p = some (Cell.JsonArray A) :=
    Heap.read_write_of_ne h _ _ _ _ hp (by rw [hv]; simp)
  refine ⟨(h.write v.refCount (Cell.int (m + 1))).write p (Cell.JsonArray ⟨A.array ++ [v]⟩),
    ?_, Heap.read_write_same _ _ _ _ hp1, ?_⟩
  · simp [JsonArray.putAt, hp, JsonArray.put, JsonValue.copyConstruct,
      JsonValue.copy_ok v h m hv]
  · intro q c hq hqp hc
    rw [Heap.read_write_other _ _ _ _ hqp]
    exact Heap.PayloadsKept.write_count h _ _ _ hv q c hq hc

/-- `q->addPair(p)` on a live object with a live value in `p`: the container at
`q` gets `p` appended, and nothing else but the count of the value changes. -/
theorem JsonObject.addPairAt_ok (q : Nat) (O : JsonObject) (p : JsonPair) (h : Heap) (m : Int)
    (hq : h.read q = some (Cell.JsonObject O))
    (hv : h.read p.value.refCount = some (Cell.int m)) :
    ∃ h2, JsonObject.addPairAt q p h = (Result.ok (), h2) ∧
      h2.read q = some (Cell.JsonObject ⟨O.pairs ++ [p]⟩) ∧
      ∀ r c, h.read r = some c → r ≠ q → (∀ k, c ≠ Cell.int k) → h2.read r = some c := by
  have hq1 : (h.write p.value.refCount (Cell.int (m + 1))).read q = some (Cell.JsonObject O) :=
    Heap.read_write_of_ne h _ _ _ _ hq (by rw [hv]; simp)
  refine ⟨(h.write p.value.refCount (Cell.int (m + 1))).write q
      (Cell.JsonObject ⟨O.pairs ++ [p]⟩), ?_, Heap.read_write_same _ _ _ _ hq1, ?_⟩
  · simp [JsonObject.addPairAt, hq, JsonObject.addPair, JsonPair.copyConstruct,
      JsonValue.copyConstruct, JsonValue.copy_ok p.value h m hv]
  · intro r c hr hrq hc
    rw [Heap.read_write_other _ _ _ _ hrq]
    exact Heap.PayloadsKept.write_count h _ _ _ hv r c hr hc

/-- An `int` index in range converts to itself. -/
theorem JsonArray.index_toNat (i : Nat) (hi : (i : Int) < 2 ^ 31) :
    ((i : Int) % 2 ^ 32).toNat = i := by
  have h0 : (0 : Int) ≤ i := Int.natCast_nonneg i
  rw [Int.emod_eq_of_lt h0 (by omega)]
  exact Int.toNat_natCast i

/-- The unsigned conversion of a non-negative index is at most the index. -/
theorem JsonArray.index_le (i : Int) (hi : 0 ≤ i) : ((i % 2 ^ 32).toNat : Int) ≤ i := by
  have h1 : 0 ≤ i % 2 ^ 32 := Int.emod_nonneg _ (by norm_num)
  rw [Int.toNat_of_nonneg h1]
  omega

/-- Copying a live handle keeps every count of the heap a count. -/
theorem JsonValue.copy_counts (v : JsonValue) (h : Heap) (m : Int)
    (hv : h.read v.refCount = some (Cell.int m)) (r : Nat)
    (hr : ∃ k, h.read r = some (Cell.int k)) :
    ∃ k, (h.write v.refCount (Cell.int (m + 1))).read r = some (Cell.int k) := by
  obtain ⟨k, hk⟩ := hr
  by_cases he : r = v.refCount
  · exact ⟨m + 1, by rw [he]; exact Heap.read_write_same _ _ _ _ hv⟩
  · exact ⟨k, by rw [Heap.read_write_other _ _ _ _ he, hk]⟩

/-- `addPair` of a pair holding a live value appends the pair. -/
theorem JsonObject.addPair_ok (o : JsonObject) (p : JsonPair) (h : Heap) (m : Int)
    (hv : h.read p.value.refCount = some (Cell.int m)) :
    o.addPair p h
      = (Result.ok ⟨o.pairs ++ [p]⟩, h.write p.value.refCount (Cell.int (m + 1))) := by
  simp [JsonObject.addPair, JsonPair.copyConstruct, JsonValue.copyConstruct,
    JsonValue.copy_ok p.value h m hv]

/-- Adding a sequence of pairs holding live values appends the sequence. -/
theorem JsonObject.addPairs_ok (ps : List JsonPair) :
    ∀ (o : JsonObject) (h : Heap),
      (∀ p ∈ ps, ∃ m, h.read p.value.refCount = some (Cell.int m)) →
      ∃ h1, o.addPairs ps h = (Result.ok ⟨o.pairs ++ ps⟩, h1) := by
  induction ps with
  | nil =>
    intro o h _
    exact ⟨h, by simp [JsonObject.addPairs]⟩
  | cons p ps ih =>
    intro o h hv
    obtain ⟨m, hm⟩ := hv p (List.mem_cons_self _ _)
    have hrest : ∀ q ∈ ps, ∃ k,
        (h.write p.value.refCount (Cell.int (m + 1))).read q.value.refCount
          = some (Cell.int k) :=
      fun q hq => JsonValue.copy_counts p.value h m hm _ (hv q (List.mem_cons_of_mem _ hq))
    obtain ⟨h1, h1eq⟩ := ih ⟨o.pairs ++ [p]⟩ _ hrest
    refine ⟨h1, ?_⟩
    simp only [JsonObject.addPairs, JsonObject.addPair_ok o p h m hm, h1eq]
    simp

/-! ## Lemmas on `PairMap` -/

theorem PairMap.find_append (m m1 : PairMap) (key : String) :
    PairMap.find (m ++ m1) key
      = match PairMap.find m key with
        | some r => some r
        | none => PairMap.find m1 key := by
  induction m with
  | nil => simp [PairMap.find]
  | cons e es ih =>
    by_cases he : e.1 = key
    · simp [PairMap.find, he]
    · simpa [PairMap.find, he] using ih

theorem PairMap.find_replace_ne (m : PairMap) (key key1 : String) (r : SlotPtr)
    (hne : key ≠ key1) : PairMap.find (PairMap.replace m key1 r) key = PairMap.find m key := by
  induction m with
  | nil => simp [PairMap.replace, PairMap.find]
  | cons e es ih =>
    have ih1 : PairMap.find (List.map (fun e => if e.1 = key1 then (key1, r) else e) es) key
        = PairMap.find es key := ih
    by_cases he : e.1 = key1
    · have hk : ¬ key1 = key := fun h => hne h.symm
      have hk1 : ¬ e.1 = key := by rw [he]; exact hk
      simp [PairMap.replace, PairMap.find, he, hk, ih1]
    · simp [PairMap.replace, PairMap.find, he, ih1]

theorem PairMap.find_enter_ne (lastWins : Bool) (m : PairMap) (key key1 : String)
    (r : SlotPtr) (hne : key ≠ key1) :
    PairMap.find (PairMap.enter lastWins m key1 r) key = PairMap.find m key := by
  have hk : ¬ key1 = key := fun h => hne h.symm
  unfold PairMap.enter
  split
  · rw [PairMap.find_append]
    cases hf : PairMap.find m key <;> simp [PairMap.find, hk]
  · split_ifs
    · exact PairMap.find_replace_ne m key key1 r hne
    · rfl

theorem PairMap.find_enter_new (lastWins : Bool) (m : PairMap) (key : String) (r : SlotPtr)
    (hnone : PairMap.find m key = none) :
    PairMap.find (PairMap.enter lastWins m key r) key = some r := by
  unfold PairMap.enter
  rw [hnone]
  simp [PairMap.find_append, hnone, PairMap.find]

/-- The walk does not touch the entry of a name that no walked pair has. -/
theorem JsonObject.buildMapFrom_find_absent (lastWins : Bool) (ps : List JsonPair) :
    ∀ (i : Nat) (m : PairMap) (key : String), (∀ p ∈ ps, p.getName ≠ key) →
      PairMap.find (JsonObject.buildMapFrom lastWins ps i m) key = PairMap.find m key := by
  induction ps with
  | nil =>
    intro i m key _
    rfl
  | cons p ps ih =>
    intro i m key hk
    have hp : key ≠ p.getName := fun h => hk p (List.mem_cons_self _ _) h.symm
    simp only [JsonObject.buildMapFrom]
    rw [ih (i + 1) _ key (fun q hq => hk q (List.mem_cons_of_mem _ hq))]
    exact PairMap.find_enter_ne lastWins m key p.getName (some i) hp

/-- With pairwise distinct names, the walk maps the name of the pair at
position `k` to the slot `i + k`. -/
theorem JsonObject.buildMapFrom_find_present (lastWins : Bool) (ps : List JsonPair) :
    ∀ (i k : Nat) (m : PairMap) (p : JsonPair), (ps.map JsonPair.getName).Nodup →
      ps[k]? = some p → PairMap.find m p.getName = none →
      PairMap.find (JsonObject.buildMapFrom lastWins ps i m) p.getName = some (some (i + k)) := by
  induction ps with
  | nil =>
    intro i k m p _ hk _
    simp at hk
  | cons q qs ih =>
    intro i k m p hnd hk hm
    rw [List.map_cons, List.nodup_cons] at hnd
    obtain ⟨hq, hnd1⟩ := hnd
    simp only [JsonObject.buildMapFrom]
    cases k with
    | zero =>
      simp only [List.getElem?_cons_zero, Option.some.injEq] at hk
      subst hk
      have habs : ∀ x ∈ qs, x.getName ≠ q.getName := by
        intro x hx he
        exact hq (he ▸ List.mem_map_of_mem JsonPair.getName hx)
      rw [JsonObject.buildMapFrom_find_absent lastWins qs (i + 1) _ q.getName habs]
      simpa using PairMap.find_enter_new lastWins m q.getName (some i) hm
    | succ k =>
      simp only [List.getElem?_cons_succ] at hk
      have hmem : p ∈ qs := List.getElem?_mem hk
      have hne : p.getName ≠ q.getName := by
        intro he
        exact hq (he ▸ List.mem_map_of_mem JsonPair.getName hmem)
      have hm1 : PairMap.find (PairMap.enter lastWins m q.getName (some i)) p.getName = none := by
        rw [PairMap.find_enter_ne lastWins m p.getName q.getName (some i) hne, hm]
      rw [ih (i + 1) k _ p hnd1 hk hm1]
      have : i + 1 + k = i + (k + 1) := by omega
      rw [this]

/-! ## Lemmas on creation and release -/

/-- Releasing a default-constructed handle frees its count, with one unit of
fuel. -/
theorem JsonValue.release_construct (fuel : Nat) (h : Heap) :
    JsonValue.release (fuel + 1) (JsonValue.construct h).1 (JsonValue.construct h).2
      = some (Result.ok (),
          ((h.alloc (Cell.int 1)).2.write (h.alloc (Cell.int 1)).1 (Cell.int 0)).free
            (h.alloc (Cell.int 1)).1) := by
  have hnew := Heap.read_alloc_new h (Cell.int 1)
  simp [JsonValue.release, JsonValue.construct, hnew]

theorem JsonValue.release_construct_one (h : Heap) :
    JsonValue.release 1 (JsonValue.construct h).1 (JsonValue.construct h).2
      = some (Result.ok (),
          ((h.alloc (Cell.int 1)).2.write (h.alloc (Cell.int 1)).1 (Cell.int 0)).free
            (h.alloc (Cell.int 1)).1) :=
  JsonValue.release_construct 0 h

/-- `create(const char *, size_t)` returns a String handle with a fresh payload
and a count of 1, in every heap. -/
theorem JsonValue.create_ok (str : String) (length : Nat) (h : Heap) :
    ∃ v h1, JsonValue.create str length h = some (Result.ok v, h1) ∧
      v.type = JsonType.STRING ∧
      h1.read v.value = some (Cell.string (String.mk (str.data.take length))) ∧
      h1.read v.refCount = some (Cell.int 1) := by
  unfold JsonValue.create JsonValue.createString
  simp only [JsonValue.release_construct_one h, JsonValue.afterRelease]
  exact ⟨_, _, rfl, rfl, Heap.read_alloc_old _ _ _ _ (Heap.read_alloc_new _ _),
    Heap.read_alloc_new _ _⟩

/-- `create(bool)` returns a Boolean handle holding the sentinel of its
argument, with a count of 1, in every heap. -/
theorem JsonValue.createBool_ok (b : Bool) (h : Heap) :
    ∃ v h1, JsonValue.createBool b h = some (Result.ok v, h1) ∧
      v.type = JsonType.BOOLEAN ∧ v.value = (if b then 1 else nullptr) ∧
      h1.read v.refCount = some (Cell.int 1) := by
  unfold JsonValue.createBool JsonValue.createBoolean
  simp only [JsonValue.release_construct_one h, JsonValue.afterRelease]
  exact ⟨_, _, rfl, rfl, rfl, Heap.read_alloc_new _ _⟩

/-- `create(double)` returns a Number handle with a fresh payload and a count
of 1, in every heap. -/
theorem JsonValue.createDouble_ok (d : Double) (h : Heap) :
    ∃ v h1, JsonValue.createDouble d h = some (Result.ok v, h1) ∧
      v.type = JsonType.NUMBER ∧
      h1.read v.value = some (Cell.double d) ∧
      h1.read v.refCount = some (Cell.int 1) := by
  unfold JsonValue.createDouble JsonValue.createNumber
  simp only [JsonValue.release_construct_one h, JsonValue.afterRelease]
  exact ⟨_, _, rfl, rfl, Heap.read_alloc_old _ _ _ _ (Heap.read_alloc_new _ _),
    Heap.read_alloc_new _ _⟩

/-- Writing the same cell twice is writing it once. -/
theorem Heap.write_write (h : Heap) (p : Nat) (c : Cell) :
    (h.write p c).write p c = h.write p c := by
  unfold Heap.write
  congr 1
  funext q
  by_cases hq : q = p <;> simp [hq]

/-- Destroying a plain handle returns with one unit of fuel.  Every count
other than the handle's own stays; the handle's own count stays a count when
the payload is shared. -/
theorem JsonValue.release_plain (fuel : Nat) (v : JsonValue) (h : Heap) (n : Int)
    (hp : v.Plain h n) :
    ∃ h1, JsonValue.release (fuel + 1) v h = some (Result.ok (), h1) ∧
      (∀ r k, h.read r = some (Cell.int k) → r ≠ v.refCount → h1.read r = some (Cell.int k)) ∧
      (n - 1 ≠ 0 → h1.read v.refCount = some (Cell.int (n - 1))) := by
  obtain ⟨hr, hcase⟩ := hp
  have hw : ∀ r k, h.read r = some (Cell.int k) → r ≠ v.refCount →
      (h.write v.refCount (Cell.int (n - 1))).read r = some (Cell.int k) := by
    intro r k hrk hne
    rw [Heap.read_write_other _ _ _ _ hne, hrk]
  have hwf : ∀ r k, h.read r = some (Cell.int k) → r ≠ v.refCount →
      ((h.write v.refCount (Cell.int (n - 1))).free v.refCount).read r = some (Cell.int k) := by
    intro r k hrk hne
    rw [Heap.read_free_other _ _ _ hne]
    exact hw r k hrk hne
  by_cases hn : n - 1 = 0
  · have hshared : ¬ (n - 1 ≠ 0) := fun hc => hc hn
    have hv2 : ∀ r k c, h.read r = some (Cell.int k) → h.read v.value = some c →
        (∀ j, c ≠ Cell.int j) → r ≠ v.refCount →
        (((h.write v.refCount (Cell.int (n - 1))).free v.value).free v.refCount).read r
          = some (Cell.int k) := by
      intro r k c hrk hvc hc hne
      have hnv : r ≠ v.value := by
        intro he
        rw [he, hvc] at hrk
        injection hrk with hrk
        exact hc k hrk
      rw [Heap.read_free_other _ _ _ hne, Heap.read_free_other _ _ _ hnv]
      exact hw r k hrk hne
    rcases hcase with hc | hc | hc | ⟨hc, s0, hs0⟩ | ⟨hc, d0, hd0⟩
    · exact absurd hc hshared
    · exact ⟨_, by simp [JsonValue.release, hr, hn, hc], hwf, fun hc1 => absurd hc1 hshared⟩
    · exact ⟨_, by simp [JsonValue.release, hr, hn, hc], hwf, fun hc1 => absurd hc1 hshared⟩
    · have hs1 : (h.write v.refCount (Cell.int 0)).read v.value = some (Cell.string s0) :=
        Heap.read_write_of_ne h _ _ _ _ hs0 (by rw [hr]; simp)
      refine ⟨((h.write v.refCount (Cell.int (n - 1))).free v.value).free v.refCount, ?_, ?_,
        fun hc1 => absurd hc1 hshared⟩
      · simp [JsonValue.release, hr, hn, hc, hs1]
      · intro r k hrk hne
        exact hv2 r k _ hrk hs0 (by simp) hne
    · have hd1 : (h.write v.refCount (Cell.int 0)).read v.value = some (Cell.double d0) :=
        Heap.read_write_of_ne h _ _ _ _ hd0 (by rw [hr]; simp)
      refine ⟨((h.write v.refCount (Cell.int (n - 1))).free v.value).free v.refCount, ?_, ?_,
        fun hc1 => absurd hc1 hshared⟩
      · simp [JsonValue.release, hr, hn, hc, hd1]
      · intro r k hrk hne
        exact hv2 r k _ hrk hd0 (by simp) hne
  · exact ⟨_, JsonValue.release_shared fuel v h n hr hn, hw,
      fun _ => Heap.read_write_same _ _ _ _ hr⟩

/-- A freshly default-constructed handle is plain, with count 1. -/
theorem JsonValue.construct_plain (h : Heap) :
    (JsonValue.construct h).1.Plain (JsonValue.construct h).2 1 :=
  ⟨Heap.read_alloc_new h (Cell.int 1), Or.inr (Or.inl rfl)⟩

/-! ## Lemmas on pairs, objects and documents -/

theorem JsonPair.equals_iff (p : JsonPair) (m : String) : p.equals m = true ↔ m = p.getName := by
  unfold JsonPair.equals JsonPair.getName
  rw [beq_iff_eq]
  exact eq_comm

theorem JsonPair.equals_false (p : JsonPair) (m : String) (hne : p.getName ≠ m) :
    p.equals m = false := by
  simpa [JsonPair.equals, JsonPair.getName] using hne

/-- Without a pair of that name, the walk of `removePair` changes nothing. -/
theorem JsonObject.removePairFrom_absent (fuel : Nat) (name : String) (ps : List JsonPair) :
    ∀ h : Heap, (∀ p ∈ ps, p.getName ≠ name) →
      JsonObject.removePairFrom fuel name ps h = some (Result.ok ps, h) := by
  induction ps with
  | nil =>
    intro h _
    rfl
  | cons p ps ih =>
    intro h hne
    have hp := JsonPair.equals_false p name (hne p (List.mem_cons_self _ _))
    simp only [JsonObject.removePairFrom, hp, ih h (fun q hq => hne q (List.mem_cons_of_mem _ hq))]
    simp

/-- The walk of `removePair` erases the first pair of that name, once the
release of its value returns. -/
theorem JsonObject.removePairFrom_first (fuel : Nat) (name : String) (p : JsonPair)
    (l2 : List JsonPair) (h h1 : Heap) (hp : p.getName = name)
    (hrel : JsonValue.release fuel p.value h = some (Result.ok (), h1)) :
    ∀ l1 : List JsonPair, (∀ q ∈ l1, q.getName ≠ name) →
      JsonObject.removePairFrom fuel name (l1 ++ p :: l2) h = some (Result.ok (l1 ++ l2), h1) := by
  intro l1
  induction l1 with
  | nil =>
    intro _
    have he : p.equals name = true := (JsonPair.equals_iff p name).mpr hp.symm
    simp [JsonObject.removePairFrom, he, hrel]
  | cons q qs ih =>
    intro hne
    have hq := JsonPair.equals_false q name (hne q (List.mem_cons_self _ _))
    have ih1 := ih (fun x hx => hne x (List.mem_cons_of_mem _ hx))
    rw [List.cons_append]
    simp only [JsonObject.removePairFrom, hq]
    rw [ih1]
    simp

/-- Copying the pairs of a list holding live values gives the same pairs, and
touches nothing but counts. -/
theorem JsonObject.copyPairs_ok (ps : List JsonPair) :
    ∀ h : Heap, (∀ p ∈ ps, ∃ m, h.read p.value.refCount = some (Cell.int m)) →
      ∃ h1, JsonObject.copyPairs ps h = (Result.ok ps, h1) ∧ h.PayloadsKept h1 ∧
        h1.next = h.next ∧
        ∀ r, (∃ k, h.read r = some (Cell.int k)) → ∃ k, h1.read r = some (Cell.int k) := by
  induction ps with
  | nil =>
    intro h _
    exact ⟨h, rfl, Heap.PayloadsKept.refl h, rfl, fun _ hr => hr⟩
  | cons p ps ih =>
    intro h hv
    obtain ⟨m, hm⟩ := hv p (List.mem_cons_self _ _)
    have hrest : ∀ q ∈ ps, ∃ k,
        (h.write p.value.refCount (Cell.int (m + 1))).read q.value.refCount
          = some (Cell.int k) :=
      fun q hq => JsonValue.copy_counts p.value h m hm _ (hv q (List.mem_cons_of_mem _ hq))
    obtain ⟨h1, h1eq, hk, hnext, hcnt⟩ := ih _ hrest
    refine ⟨h1, ?_, (Heap.PayloadsKept.write_count h _ _ _ hm).trans hk, hnext, ?_⟩
    · simp [JsonObject.copyPairs, JsonPair.copyConstruct, JsonValue.copyConstruct,
        JsonValue.copy_ok p.value h m hm, h1eq]
    · intro r hr
      exact hcnt r (JsonValue.copy_counts p.value h m hm r hr)

/-- A copy that returns has the three fields of its source. -/
theorem JsonValue.copy_result (v e : JsonValue) (h h1 : Heap)
    (hc : v.copy h = (Result.ok e, h1)) : e = v := by
  unfold JsonValue.copy at hc
  split at hc
  · injection hc with hc _
    injection hc with hc
    exact hc.symm
  · injection hc with hc _
    cases hc

theorem JsonPair.copyConstruct_result (p e : JsonPair) (h h1 : Heap)
    (hc : p.copyConstruct h = (Result.ok e, h1)) : e = p := by
  unfold JsonPair.copyConstruct JsonValue.copyConstruct at hc
  split at hc
  · rename_i v h2 hcopy
    injection hc with hc _
    injection hc with hc
    rw [← hc, JsonValue.copy_result _ _ _ _ hcopy]
  · injection hc with hc _
    cases hc
  · injection hc with hc _
    cases hc

/-- A copy of a list of pairs that returns is the list. -/
theorem JsonObject.copyPairs_result (ps : List JsonPair) :
    ∀ (h h1 : Heap) (qs : List JsonPair),
      JsonObject.copyPairs ps h = (Result.ok qs, h1) → qs = ps := by
  induction ps with
  | nil =>
    intro h h1 qs hc
    simp only [JsonObject.copyPairs] at hc
    injection hc with hc _
    injection hc with hc
    exact hc.symm
  | cons p ps ih =>
    intro h h1 qs hc
    simp only [JsonObject.copyPairs] at hc
    split at hc
    · rename_i e h2 hcp
      have he := JsonPair.copyConstruct_result p e h h2 hcp
      split at hc
      · rename_i es h3 hcs
        have hes := ih h2 h3 es hcs
        injection hc with hc _
        injection hc with hc
        rw [← hc, he, hes]
      · rename_i hnot
        exact absurd hc (hnot qs h1)
    · injection hc with hc _
      cases hc
    · injection hc with hc _
      cases hc

/-- An assignment that returns gives the handle the three fields of its
source. -/
theorem JsonValue.assignOp_result (fuel : Nat) (this v e : JsonValue) (h h1 : Heap)
    (hc : this.assignOp fuel v h = some (Result.ok e, h1)) : e = v := by
  unfold JsonValue.assignOp JsonValue.assign JsonValue.afterRelease at hc
  split at hc
  · cases hc
  · injection hc with hc
    exact JsonValue.copy_result v e _ h1 hc
  · injection hc with hc
    injection hc with hc _
    cases hc
  · injection hc with hc
    injection hc with hc _
    cases hc

theorem JsonPair.assignOp_pair_result (fuel : Nat) (this p e : JsonPair) (h h1 : Heap)
    (hc : this.assignOp fuel p h = some (Result.ok e, h1)) : e = p := by
  unfold JsonPair.assignOp at hc
  split at hc
  · cases hc
  · rename_i v h2 hv
    injection hc with hc
    injection hc with hc _
    injection hc with hc
    rw [← hc, JsonValue.assignOp_result fuel _ _ _ _ _ hv]
  · injection hc with hc
    injection hc with hc _
    cases hc
  · injection hc with hc
    injection hc with hc _
    cases hc

/-- An assignment of a list of pairs that returns gives the source list. -/
theorem JsonObject.assignEach_result (fuel : Nat) (olds : List JsonPair) :
    ∀ (src : List JsonPair) (h h1 : Heap) (ps : List JsonPair),
      JsonObject.assignEach fuel olds src h = some (Result.ok ps, h1) → ps = src := by
  induction olds with
  | nil =>
    intro src h h1 ps hc
    simp only [JsonObject.assignEach] at hc
    injection hc with hc
    exact JsonObject.copyPairs_result src h h1 ps hc
  | cons o os ih =>
    intro src h h1 ps hc
    cases src with
    | nil =>
      simp only [JsonObject.assignEach] at hc
      split at hc
      · cases hc
      · injection hc with hc
        injection hc with hc _
        injection hc with hc
        exact hc.symm
      · injection hc with hc
        injection hc with hc _
        cases hc
      · injection hc with hc
        injection hc with hc _
        cases hc
    | cons s ss =>
      simp only [JsonObject.assignEach] at hc
      split at hc
      · rename_i e h2 he
        have hes := JsonPair.assignOp_pair_result fuel o s e h h2 he
        split at hc
        · rename_i es h3 hrest
          have hss := ih ss h2 h3 es hrest
          injection hc with hc
          injection hc with hc _
          injection hc with hc
          rw [← hc, hes, hss]
        · rename_i hnot
          exact absurd hc (hnot ps h1)
      · injection hc with hc
        injection hc with hc _
        cases hc
      · injection hc with hc
        injection hc with hc _
        cases hc
      · cases hc

theorem JsonObject.handlesOn_cons (o : JsonPair) (os : List JsonPair) (r : Nat) :
    JsonObject.handlesOn (o :: os) r
      = JsonObject.handlesOn os r + (if o.value.refCount = r then 1 else 0) := by
  unfold JsonObject.handlesOn
  rw [List.countP_cons]
  simp

/-- Raising a count keeps a list shared outside. -/
theorem JsonObject.SharedOutside.write_ge (ps : List JsonPair) (h : Heap) (r : Nat)
    (m x : Int) (hs : JsonObject.SharedOutside ps h) (hr : h.read r = some (Cell.int m))
    (hx : m ≤ x) : JsonObject.SharedOutside ps (h.write r (Cell.int x)) := by
  intro p hp
  obtain ⟨n, hn, hlt⟩ := hs p hp
  by_cases he : p.value.refCount = r
  · refine ⟨x, by rw [he]; exact Heap.read_write_same _ _ _ _ hr, ?_⟩
    rw [he, hr] at hn
    injection hn with hn
    injection hn with hn
    omega
  · exact ⟨n, by rw [Heap.read_write_other _ _ _ _ he, hn], hlt⟩

/-- The head of a list shared outside is released by a decrement, and the tail
is shared outside afterwards. -/
theorem JsonObject.SharedOutside.release_head (o : JsonPair) (os : List JsonPair) (h : Heap)
    (hs : JsonObject.SharedOutside (o :: os) h) :
    ∃ n, h.read o.value.refCount = some (Cell.int n) ∧ n - 1 ≠ 0 ∧
      JsonObject.SharedOutside os (h.write o.value.refCount (Cell.int (n - 1))) := by
  obtain ⟨n, hn, hlt⟩ := hs o (List.mem_cons_self _ _)
  rw [JsonObject.handlesOn_cons] at hlt
  simp only [if_true] at hlt
  refine ⟨n, hn, by omega, ?_⟩
  intro p hp
  obtain ⟨k, hk, hklt⟩ := hs p (List.mem_cons_of_mem _ hp)
  rw [JsonObject.handlesOn_cons] at hklt
  by_cases he : p.value.refCount = o.value.refCount
  · refine ⟨n - 1, by rw [he]; exact Heap.read_write_same _ _ _ _ hn, ?_⟩
    rw [he, hn] at hk
    injection hk with hk
    injection hk with hk
    have he1 : o.value.refCount = p.value.refCount := he.symm
    simp only [he1, if_true] at hklt
    push_cast at hklt
    omega
  · refine ⟨k, by rw [Heap.read_write_other _ _ _ _ he, hk], ?_⟩
    have he1 : ¬ o.value.refCount = p.value.refCount := fun hc => he hc.symm
    simp only [he1, if_false, Nat.add_zero] at hklt
    exact hklt

/-- Destroying a list shared outside returns with one unit of fuel and frees
nothing. -/
theorem JsonObject.destroyPairs_shared (fuel : Nat) (ps : List JsonPair) :
    ∀ h : Heap, JsonObject.SharedOutside ps h →
      ∃ h1, JsonObject.destroyPairs (fuel + 1) ps h = some (Result.ok (), h1) ∧
        h.PayloadsKept h1 ∧ h1.next = h.next ∧
        ∀ r, (∃ k, h.read r = some (Cell.int k)) → ∃ k, h1.read r = some (Cell.int k) := by
  induction ps with
  | nil =>
    intro h _
    exact ⟨h, rfl, Heap.PayloadsKept.refl h, rfl, fun _ hr => hr⟩
  | cons o os ih =>
    intro h hs
    obtain ⟨n, hn, hn1, htail⟩ := JsonObject.SharedOutside.release_head o os h hs
    obtain ⟨h1, hd, hk, hnext, hcnt⟩ := ih _ htail
    refine ⟨h1, ?_, (Heap.PayloadsKept.write_count h _ _ _ hn).trans hk, hnext, ?_⟩
    · simp only [JsonObject.destroyPairs, JsonValue.release_shared fuel o.value h n hn hn1, hd]
    · intro r hr
      exact hcnt r (Heap.write_count_counts h _ _ _ hn r hr)

/-- Assigning a list of live pairs to a list shared outside returns with one
unit of fuel, gives the source list, frees and allocates nothing. -/
theorem JsonObject.assignEach_shared (fuel : Nat) (olds : List JsonPair) :
    ∀ (src : List JsonPair) (h : Heap), JsonObject.SharedOutside olds h →
      (∀ s ∈ src, ∃ m, h.read s.value.refCount = some (Cell.int m)) →
      ∃ h1, JsonObject.assignEach (fuel + 1) olds src h = some (Result.ok src, h1) ∧
        h.PayloadsKept h1 ∧ h1.next = h.next := by
  induction olds with
  | nil =>
    intro src h _ hlive
    obtain ⟨h1, hcp, hk, hnext, _⟩ := JsonObject.copyPairs_ok src h hlive
    exact ⟨h1, by simp [JsonObject.assignEach, hcp], hk, hnext⟩
  | cons o os ih =>
    intro src h hs hlive
    cases src with
    | nil =>
      obtain ⟨h1, hd, hk, hnext, _⟩ := JsonObject.destroyPairs_shared fuel (o :: os) h hs
      exact ⟨h1, by simp [JsonObject.assignEach, hd], hk, hnext⟩
    | cons s ss =>
      obtain ⟨n, hn, hn1, htail⟩ := JsonObject.SharedOutside.release_head o os h hs
      obtain ⟨m, hm⟩ := Heap.write_count_counts h _ _ (n - 1) hn s.value.refCount
        (hlive s (List.mem_cons_self _ _))
      have htail1 := JsonObject.SharedOutside.write_ge os _ _ m (m + 1) htail hm (by omega)
      have hlive1 : ∀ x ∈ ss, ∃ k,
          ((h.write o.value.refCount (Cell.int (n - 1))).write s.value.refCount
            (Cell.int (m + 1))).read x.value.refCount = some (Cell.int k) := by
        intro x hx
        exact Heap.write_count_counts _ _ _ _ hm _
          (Heap.write_count_counts h _ _ _ hn _ (hlive x (List.mem_cons_of_mem _ hx)))
      obtain ⟨h1, hrest, hk, hnext⟩ := ih ss _ htail1 hlive1
      have hpair : JsonPair.assignOp (fuel + 1) o s h
          = some (Result.ok s, (h.write o.value.refCount (Cell.int (n - 1))).write
              s.value.refCount (Cell.int (m + 1))) := by
        simp [JsonPair.assignOp, JsonValue.assignOp, JsonValue.assign,
          JsonValue.release_shared fuel o.value h n hn hn1, JsonValue.afterRelease,
          JsonValue.copy_ok s.value _ m hm]
      refine ⟨h1, ?_, ((Heap.PayloadsKept.write_count h _ _ _ hn).trans
        (Heap.PayloadsKept.write_count _ _ _ _ hm)).trans hk, hnext⟩
      simp only [JsonObject.assignEach, hpair, hrest]

theorem Json.unwrap_wrap (r : Result JsonObject × Heap) : Json.unwrap (Json.wrap r) = r := by
  obtain ⟨r1, r2⟩ := r
  cases r1 <;> rfl

/-! ## Claims -/

/-- C1. Typed getters are type-safe.  For every value `v` (in every heap) and
each of `getString`, `getNumber`, `getBoolean`, `getArray`, `getObject`: when
the tag of `v` is not the variant of the getter, the call throws the
type-mismatch exception naming the actual and the expected type, so nothing is
returned; when the tag matches, the call returns the payload of `v`: the
reference `value` for a String, the stored double for a Number, whether `value`
is non-null for a Boolean, and the container pointer of the `Array`/`Object`
record for an Array/Object. -/
theorem C1_getters_type_safe (v : JsonValue) (h : Heap) :
    (v.type ≠ JsonType.STRING →
        v.getString = Result.raise (Exception.typeMismatch v.type JsonType.STRING)) ∧
    (v.type ≠ JsonType.NUMBER →
        v.getNumber h = Result.raise (Exception.typeMismatch v.type JsonType.NUMBER)) ∧
    (v.type ≠ JsonType.BOOLEAN →
        v.getBoolean = Result.raise (Exception.typeMismatch v.type JsonType.BOOLEAN)) ∧
    (v.type ≠ JsonType.ARRAY →
        v.getArray h = Result.raise (Exception.typeMismatch v.type JsonType.ARRAY)) ∧
    (v.type ≠ JsonType.OBJECT →
        v.getObject h = Result.raise (Exception.typeMismatch v.type JsonType.OBJECT)) ∧
    (v.type = JsonType.STRING → v.getString = Result.ok v.value) ∧
    (v.type = JsonType.NUMBER → ∀ d, h.read v.value = some (Cell.double d) →
        v.getNumber h = Result.ok d) ∧
    (v.type = JsonType.BOOLEAN → v.getBoolean = Result.ok (v.value != nullptr)) ∧
    (v.type = JsonType.ARRAY → ∀ arr ast, h.read v.value = some (Cell.Array arr ast) →
        v.getArray h = Result.ok arr) ∧
    (v.type = JsonType.OBJECT → ∀ obj ast, h.read v.value = some (Cell.Object obj ast) →
        v.getObject h = Result.ok obj) := by
  refine ⟨?_, ?_, ?_, ?_, ?_, ?_, ?_, ?_, ?_, ?_⟩
  · intro ht
    simp [JsonValue.getString, JsonValue.assertType, ht, Result.bind]
  · intro ht
    simp [JsonValue.getNumber, JsonValue.assertType, ht, Result.bind]
  · intro ht
    simp [JsonValue.getBoolean, JsonValue.assertType, ht, Result.bind]
  · intro ht
    simp [JsonValue.getArray, JsonValue.assertType, ht, Result.bind]
  · intro ht
    simp [JsonValue.getObject, JsonValue.assertType, ht, Result.bind]
  · intro ht
    simp [JsonValue.getString, JsonValue.assertType, ht, Result.bind]
  · intro ht d hd
    simp [JsonValue.getNumber, JsonValue.assertType, ht, Result.bind, hd]
  · intro ht
    simp [JsonValue.getBoolean, JsonValue.assertType, ht, Result.bind]
  · intro ht arr ast hd
    simp [JsonValue.getArray, JsonValue.assertType, ht, Result.bind, hd]
  · intro ht obj ast hd
    simp [JsonValue.getObject, JsonValue.assertType, ht, Result.bind, hd]

/-- C1 on a String handle: `getNumber` throws, `getString` returns the reference. -/
theorem C1_getters_type_safe_witness :
    (JsonValue.getNumber ⟨2, 3, JsonType.STRING⟩ Heap.empty
        = Result.raise (Exception.typeMismatch JsonType.STRING JsonType.NUMBER)) ∧
    (JsonValue.getString ⟨2, 3, JsonType.STRING⟩ = Result.ok 2) :=
  ⟨(C1_getters_type_safe ⟨2, 3, JsonType.STRING⟩ Heap.empty).2.1 (by decide),
   (C1_getters_type_safe ⟨2, 3, JsonType.STRING⟩ Heap.empty).2.2.2.2.2.1 rfl⟩

/-- C2. Typed setters are type-safe.  For every value `v` and each of
`setString`, `setNumber`, `setBoolean`: when the tag of `v` is not the variant
of the setter, the call throws the type-mismatch exception and leaves the state
it could have written as it was (the heap for `setString`/`setNumber`, the
handle for `setBoolean`).  No setter changes a tag, whatever its outcome:
`setBoolean` returns a handle with the tag it got, and `setString`/`setNumber`
write at most one `std::string`/`double` cell, so every other heap cell, the
containers holding handles among them, reads as before. -/
theorem C2_setters_type_safe (v : JsonValue) (h : Heap) (s : String) (d : Double) (b : Bool) :
    (v.type ≠ JsonType.STRING →
        v.setString s h = (Result.raise (Exception.typeMismatch v.type JsonType.STRING), h)) ∧
    (v.type ≠ JsonType.NUMBER →
        v.setNumber d h = (Result.raise (Exception.typeMismatch v.type JsonType.NUMBER), h)) ∧
    (v.type ≠ JsonType.BOOLEAN →
        v.setBoolean b = (Result.raise (Exception.typeMismatch v.type JsonType.BOOLEAN), v)) ∧
    (v.setBoolean b).2.type = v.type ∧
    (∀ p c, h.read p = some c → (∀ t, c ≠ Cell.string t) → (v.setString s h).2.read p = some c) ∧
    (∀ p c, h.read p = some c → (∀ t, c ≠ Cell.double t) → (v.setNumber d h).2.read p = some c) := by
  refine ⟨?_, ?_, ?_, ?_, ?_, ?_⟩
  · intro ht
    simp [JsonValue.setString, JsonValue.assertType, ht]
  · intro ht
    simp [JsonValue.setNumber, JsonValue.assertType, ht]
  · intro ht
    simp [JsonValue.setBoolean, JsonValue.assertType, ht]
  · unfold JsonValue.setBoolean JsonValue.assertType
    split_ifs <;> rfl
  · intro p c hp hc
    unfold JsonValue.setString JsonValue.assertType
    split_ifs
    · simp only
      split
      · rename_i t0 hv
        have hne : p ≠ v.value := by
          intro he
          rw [he, hv] at hp
          exact hc t0 (by injection hp with hp; exact hp.symm)
        simp only [Heap.read_write_other _ _ _ _ hne, hp]
      · exact hp
    · exact hp
  · intro p c hp hc
    unfold JsonValue.setNumber JsonValue.assertType
    split_ifs
    · simp only
      split
      · rename_i t0 hv
        have hne : p ≠ v.value := by
          intro he
          rw [he, hv] at hp
          exact hc t0 (by injection hp with hp; exact hp.symm)
        simp only [Heap.read_write_other _ _ _ _ hne, hp]
      · exact hp
    · exact hp

/-- C2 on a Number handle: `setString` and `setBoolean` throw and change nothing. -/
theorem C2_setters_type_safe_witness :
    (JsonValue.setString ⟨2, 3, JsonType.NUMBER⟩ "y" Heap.empty
        = (Result.raise (Exception.typeMismatch JsonType.NUMBER JsonType.STRING), Heap.empty)) ∧
    (JsonValue.setBoolean ⟨2, 3, JsonType.NUMBER⟩ true
        = (Result.raise (Exception.typeMismatch JsonType.NUMBER JsonType.BOOLEAN),
            ⟨2, 3, JsonType.NUMBER⟩)) :=
  ⟨(C2_setters_type_safe ⟨2, 3, JsonType.NUMBER⟩ Heap.empty "y" ⟨0⟩ true).1 (by decide),
   (C2_setters_type_safe ⟨2, 3, JsonType.NUMBER⟩ Heap.empty "y" ⟨0⟩ true).2.2.1 (by decide)⟩

/-- C3. Mutation of a String or Number is seen through every handle that
shares the payload.  Let `a` be a live handle (its count cell holds some `n`).
If `a` is a String holding `x`, copy-constructing `b` from `a` succeeds, and
after `a.setString(y)` both `b.getString()` and `a.getString()` return a
reference at which `y` is stored.  If `a` is a Number holding `x`, the same
holds with `setNumber`/`getNumber`: both handles read `y`. -/
theorem C3_shared_string_number (a : JsonValue) (h : Heap) (n : Int)
    (hr : h.read a.refCount = some (Cell.int n)) :
    (∀ x y : String, a.type = JsonType.STRING → h.read a.value = some (Cell.string x) →
      ∃ b h1 h2, a.copyConstruct h = (Result.ok b, h1) ∧
        a.setString y h1 = (Result.ok (), h2) ∧
        (∃ p, b.getString = Result.ok p ∧ h2.read p = some (Cell.string y)) ∧
        (∃ q, a.getString = Result.ok q ∧ h2.read q = some (Cell.string y))) ∧
    (∀ x y : Double, a.type = JsonType.NUMBER → h.read a.value = some (Cell.double x) →
      ∃ b h1 h2, a.copyConstruct h = (Result.ok b, h1) ∧
        a.setNumber y h1 = (Result.ok (), h2) ∧
        b.getNumber h2 = Result.ok y ∧ a.getNumber h2 = Result.ok y) := by
  constructor
  · intro x y ht hv
    have hv1 : (h.write a.refCount (Cell.int (n + 1))).read a.value = some (Cell.string x) :=
      Heap.read_write_of_ne h _ _ _ _ hv (by rw [hr]; simp)
    have hv2 := Heap.read_write_same _ a.value (Cell.string y) _ hv1
    refine ⟨a, _, _, JsonValue.copy_ok a h n hr, ?_, ⟨a.value, ?_, hv2⟩, ⟨a.value, ?_, hv2⟩⟩
    · simp [JsonValue.setString, JsonValue.assertType, ht, hv1]
    · simp [JsonValue.getString, JsonValue.assertType, ht, Result.bind]
    · simp [JsonValue.getString, JsonValue.assertType, ht, Result.bind]
  · intro x y ht hv
    have hv1 : (h.write a.refCount (Cell.int (n + 1))).read a.value = some (Cell.double x) :=
      Heap.read_write_of_ne h _ _ _ _ hv (by rw [hr]; simp)
    have hv2 := Heap.read_write_same _ a.value (Cell.double y) _ hv1
    refine ⟨a, _, (h.write a.refCount (Cell.int (n + 1))).write a.value (Cell.double y),
      JsonValue.copy_ok a h n hr, ?_, ?_, ?_⟩
    · simp [JsonValue.setNumber, JsonValue.assertType, ht, hv1]
    · simp [JsonValue.getNumber, JsonValue.assertType, ht, Result.bind, hv2]
    · simp [JsonValue.getNumber, JsonValue.assertType, ht, Result.bind, hv2]

/-- C3 on the handle `⟨1, 2, STRING⟩` owning `"x"`: after the copy and
`setString("y")`, both handles refer to `"y"`. -/
theorem C3_shared_string_number_witness :
    ∃ b h1 h2,
      JsonValue.copyConstruct ⟨1, 2, JsonType.STRING⟩ (Heap.single (Cell.string "x"))
        = (Result.ok b, h1) ∧
      JsonValue.setString ⟨1, 2, JsonType.STRING⟩ "y" h1 = (Result.ok (), h2) ∧
      (∃ p, b.getString = Result.ok p ∧ h2.read p = some (Cell.string "y")) ∧
      (∃ q, JsonValue.getString ⟨1, 2, JsonType.STRING⟩ = Result.ok q ∧
        h2.read q = some (Cell.string "y")) :=
  (C3_shared_string_number ⟨1, 2, JsonType.STRING⟩ (Heap.single (Cell.string "x")) 1
    (by decide)).1 "x" "y" rfl (by decide)

/-- C4, the claim refuted at a concrete input.  `a = create(true)`, `b` a
copy of `a`, then `a.setBoolean(false)`: `a` reads `false`, but `b` still reads
`true`.  The Boolean is the `value` field of the handle itself, which the copy
duplicated; `setBoolean` writes that field of `a` only. -/
theorem C4_boolean_not_shared_counterexample :
    ∃ h h1,
      JsonValue.createBool true Heap.empty = some (Result.ok ⟨1, 2, JsonType.BOOLEAN⟩, h) ∧
      JsonValue.copyConstruct ⟨1, 2, JsonType.BOOLEAN⟩ h
        = (Result.ok ⟨1, 2, JsonType.BOOLEAN⟩, h1) ∧
      JsonValue.setBoolean ⟨1, 2, JsonType.BOOLEAN⟩ false
        = (Result.ok (), ⟨0, 2, JsonType.BOOLEAN⟩) ∧
      JsonValue.getBoolean ⟨0, 2, JsonType.BOOLEAN⟩ = Result.ok false ∧
      JsonValue.getBoolean ⟨1, 2, JsonType.BOOLEAN⟩ = Result.ok true ∧
      JsonValue.getBoolean ⟨1, 2, JsonType.BOOLEAN⟩ ≠ Result.ok false :=
  ⟨_, _, rfl, rfl, rfl, rfl, rfl, by decide⟩

/-- C4, amended.  For every live Boolean handle `a` and every `x`:
copy-constructing `b` from `a` succeeds; `a.setBoolean(x)` succeeds and
afterwards `a.getBoolean()` returns `x`; the copy `b` is not affected by the
call: `b.getBoolean()` returns what `a.getBoolean()` returned when `b` was
made.  A Boolean is stored in the handle, not in storage shared by the
handles. -/
theorem C4_boolean_per_handle (a : JsonValue) (h : Heap) (n : Int) (x : Bool)
    (ht : a.type = JsonType.BOOLEAN) (hr : h.read a.refCount = some (Cell.int n)) :
    ∃ b h1 a1, a.copyConstruct h = (Result.ok b, h1) ∧
      a.setBoolean x = (Result.ok (), a1) ∧
      a1.getBoolean = Result.ok x ∧
      a1.getType = JsonType.BOOLEAN ∧
      b.getBoolean = a.getBoolean ∧
      b.getBoolean = Result.ok (a.value != nullptr) := by
  refine ⟨a, _, { a with value := if x then 1 else nullptr },
    JsonValue.copy_ok a h n hr, ?_, ?_, ?_, rfl, ?_⟩
  · simp [JsonValue.setBoolean, JsonValue.assertType, ht]
  · cases x <;> simp [JsonValue.getBoolean, JsonValue.assertType, ht, Result.bind, nullptr]
  · simp [JsonValue.getType, ht]
  · simp [JsonValue.getBoolean, JsonValue.assertType, ht, Result.bind]

/-- C4 (amended) on a Boolean handle holding `true`, set to `false`. -/
theorem C4_boolean_per_handle_witness :
    ∃ b h1 a1,
      JsonValue.copyConstruct ⟨1, 2, JsonType.BOOLEAN⟩ (Heap.single (Cell.int 1))
        = (Result.ok b, h1) ∧
      JsonValue.setBoolean ⟨1, 2, JsonType.BOOLEAN⟩ false = (Result.ok (), a1) ∧
      a1.getBoolean = Result.ok false ∧
      a1.getType = JsonType.BOOLEAN ∧
      b.getBoolean = JsonValue.getBoolean ⟨1, 2, JsonType.BOOLEAN⟩ ∧
      b.getBoolean = Result.ok ((1 : Nat) != nullptr) :=
  C4_boolean_per_handle ⟨1, 2, JsonType.BOOLEAN⟩ (Heap.single (Cell.int 1)) 1 false rfl
    (by decide)

/-- C5. Replacement is not aliasing.  Let `a` be a live handle with count `n`.

Scenario of the spec: `a` is a String holding `y` (`1 ≤ n`); `Value c; c = a;`
succeeds; then `a.createString(z, length)` succeeds, `a.getString()` refers to
a new payload (an address that held nothing before) holding the first `length`
characters of `z`, and `c.getString()` still refers to `y`.

In general: when the old payload of `a` is shared with another handle
(`2 ≤ n`), assigning any live value `w` to `a`, or re-creating `a` by any of
`createString`, `createBoolean`, `createNumber`, `createArray`,
`createObject`, succeeds and keeps every payload of the heap: every string,
double, record and container that could be read before reads the same
afterwards, so every other handle reads what it read. -/
theorem C5_replacement_not_aliasing (a : JsonValue) (h : Heap) (n : Int) (fuel : Nat)
    (hr : h.read a.refCount = some (Cell.int n)) :
    (∀ (y z : String) (length : Nat), 1 ≤ n → a.type = JsonType.STRING →
      h.read a.value = some (Cell.string y) →
      ∃ c h1 a1 h2,
        JsonValue.assignOp (fuel + 1) (JsonValue.construct h).1 a (JsonValue.construct h).2
          = some (Result.ok c, h1) ∧
        a.createString (fuel + 1) z length h1 = some (Result.ok a1, h2) ∧
        (∃ q, a1.getString = Result.ok q ∧ h1.read q = none ∧
          h2.read q = some (Cell.string (String.mk (z.data.take length))) ∧
          (length = z.length → h2.read q = some (Cell.string z))) ∧
        (∃ p, c.getString = Result.ok p ∧ h2.read p = some (Cell.string y))) ∧
    (2 ≤ n →
      (∀ (w : JsonValue) (m : Int), h.read w.refCount = some (Cell.int m) →
        ∃ a1 h1, a.assignOp (fuel + 1) w h = some (Result.ok a1, h1) ∧ h.PayloadsKept h1) ∧
      (∀ (z : String) (length : Nat),
        ∃ a1 h1, a.createString (fuel + 1) z length h = some (Result.ok a1, h1) ∧
          h.PayloadsKept h1) ∧
      (∀ x : Bool,
        ∃ a1 h1, a.createBoolean (fuel + 1) x h = some (Result.ok a1, h1) ∧
          h.PayloadsKept h1) ∧
      (∀ d : Double,
        ∃ a1 h1, a.createNumber (fuel + 1) d h = some (Result.ok a1, h1) ∧
          h.PayloadsKept h1) ∧
      (∃ a1 h1, a.createArray (fuel + 1) h = some (Result.ok a1, h1) ∧ h.PayloadsKept h1) ∧
      (∃ a1 h1, a.createObject (fuel + 1) h = some (Result.ok a1, h1) ∧ h.PayloadsKept h1)) := by
  constructor
  · intro y z length hn ht hv
    obtain ⟨h1, hasg, hk1, hc1, _⟩ := JsonValue.assign_construct fuel a h n hr
    obtain ⟨a1, h2, hcr, hty, hnew, hfresh, _, hk2⟩ :=
      JsonValue.createString_shared fuel a h1 (n + 1) z length hc1 (by omega)
    refine ⟨a, h1, a1, h2, hasg, hcr, ⟨a1.value, ?_, hfresh, hnew, ?_⟩, ⟨a.value, ?_, ?_⟩⟩
    · simp [JsonValue.getString, JsonValue.assertType, hty, Result.bind]
    · intro hlen
      rw [hnew, hlen]
      have hz : z.length = z.data.length := rfl
      rw [hz, List.take_length]
    · simp [JsonValue.getString, JsonValue.assertType, ht, Result.bind]
    · exact hk2 _ _ (hk1 _ _ hv (by simp)) (by simp)
  · intro hn
    have hn1 : n - 1 ≠ 0 := by omega
    have hkw := Heap.PayloadsKept.write_count h _ _ (n - 1) hr
    refine ⟨?_, ?_, ?_, ?_, ?_, ?_⟩
    · intro w m hw
      have hw1 : ∃ m1, (h.write a.refCount (Cell.int (n - 1))).read w.refCount
          = some (Cell.int m1) := by
        by_cases he : w.refCount = a.refCount
        · exact ⟨n - 1, by rw [he]; exact Heap.read_write_same _ _ _ _ hr⟩
        · exact ⟨m, by rw [Heap.read_write_other _ _ _ _ he, hw]⟩
      obtain ⟨m1, hm1⟩ := hw1
      unfold JsonValue.assignOp JsonValue.assign
      rw [JsonValue.afterRelease_shared fuel a h n _ hr hn1, JsonValue.copy_ok _ _ _ hm1]
      exact ⟨w, _, rfl, hkw.trans (Heap.PayloadsKept.write_count _ _ _ (m1 + 1) hm1)⟩
    · intro z length
      obtain ⟨a1, h1, hcr, _, _, _, _, hk⟩ :=
        JsonValue.createString_shared fuel a h n z length hr hn1
      exact ⟨a1, h1, hcr, hk⟩
    · intro x
      unfold JsonValue.createBoolean
      rw [JsonValue.afterRelease_shared fuel a h n _ hr hn1]
      exact ⟨_, _, rfl, hkw.trans (Heap.PayloadsKept.alloc _ _)⟩
    · intro d
      unfold JsonValue.createNumber
      rw [JsonValue.afterRelease_shared fuel a h n _ hr hn1]
      exact ⟨_, _, rfl, hkw.trans ((Heap.PayloadsKept.alloc _ _).trans
        (Heap.PayloadsKept.alloc _ _))⟩
    · unfold JsonValue.createArray
      rw [JsonValue.afterRelease_shared fuel a h n _ hr hn1]
      exact ⟨_, _, rfl, hkw.trans ((Heap.PayloadsKept.alloc _ _).trans
        ((Heap.PayloadsKept.alloc _ _).trans (Heap.PayloadsKept.alloc _ _)))⟩
    · unfold JsonValue.createObject
      rw [JsonValue.afterRelease_shared fuel a h n _ hr hn1]
      exact ⟨_, _, rfl, hkw.trans ((Heap.PayloadsKept.alloc _ _).trans
        ((Heap.PayloadsKept.alloc _ _).trans (Heap.PayloadsKept.alloc _ _)))⟩

/-- C5 on the handle `⟨1, 2, STRING⟩` owning `"y"`: `Value c; c = a;` then
`a.createString("z", 1)`; and `createArray` on a handle whose count is 2. -/
theorem C5_replacement_not_aliasing_witness :
    (∃ c h1 a1 h2,
      JsonValue.assignOp (0 + 1) (JsonValue.construct (Heap.single (Cell.string "y"))).1
          ⟨1, 2, JsonType.STRING⟩ (JsonValue.construct (Heap.single (Cell.string "y"))).2
        = some (Result.ok c, h1) ∧
      JsonValue.createString (0 + 1) ⟨1, 2, JsonType.STRING⟩ "z" 1 h1
        = some (Result.ok a1, h2) ∧
      (∃ q, a1.getString = Result.ok q ∧ h1.read q = none ∧
        h2.read q = some (Cell.string (String.mk ("z".data.take 1))) ∧
        (1 = "z".length → h2.read q = some (Cell.string "z"))) ∧
      (∃ p, c.getString = Result.ok p ∧ h2.read p = some (Cell.string "y"))) ∧
    (∃ a1 h1,
      JsonValue.createArray (0 + 1) ⟨1, 2, JsonType.STRING⟩
          ((Heap.single (Cell.string "y")).write 2 (Cell.int 2))
        = some (Result.ok a1, h1) ∧
      ((Heap.single (Cell.string "y")).write 2 (Cell.int 2)).PayloadsKept h1) :=
  ⟨(C5_replacement_not_aliasing ⟨1, 2, JsonType.STRING⟩ (Heap.single (Cell.string "y")) 1 0
      (by decide)).1 "y" "z" 1 (by decide) rfl (by decide),
   ((C5_replacement_not_aliasing ⟨1, 2, JsonType.STRING⟩
      ((Heap.single (Cell.string "y")).write 2 (Cell.int 2)) 2 0
      (by decide)).2 (by decide)).2.2.2.2.1⟩

/-- C6. Copying an Array or Object value is shallow.  Let `a` be a live
handle.  Both copy-construction from `a` and assignment of `a` to a
default-constructed handle succeed.  For a copy `b` made either way, or by
assignment of `a` to a live handle whose old payload is shared (count at least
2), in the heap `h1` the copy left:

* if `a` is an Array whose record points to the container `arr` holding `A`,
  then `a.getArray()` and `b.getArray()` are both `arr`, and after
  `a.getArray()->put(v)` of a live `v`, `b.getArray()->getSize()` is
  `A.getSize() + 1` and the last element of the container seen through `b` is
  `v`;
* if `a` is an Object whose record points to the container `obj` holding `O`,
  the same holds for `getObject`, `addPair(p)` and `getPairsSize`. -/
theorem C6_container_copy_shallow (a : JsonValue) (h : Heap) (n : Int) (fuel : Nat)
    (hr : h.read a.refCount = some (Cell.int n)) :
    (∃ b h1, a.copyConstruct h = (Result.ok b, h1)) ∧
    (∃ b h1, JsonValue.assignOp (fuel + 1) (JsonValue.construct h).1 a (JsonValue.construct h).2
        = some (Result.ok b, h1)) ∧
    ∀ b h1, (a.copyConstruct h = (Result.ok b, h1) ∨
        JsonValue.assignOp (fuel + 1) (JsonValue.construct h).1 a (JsonValue.construct h).2
          = some (Result.ok b, h1) ∨
        ∃ b0 k, h.read b0.refCount = some (Cell.int k) ∧ 2 ≤ k ∧
          JsonValue.assignOp (fuel + 1) b0 a h = some (Result.ok b, h1)) →
      (∀ arr ast A v m, a.type = JsonType.ARRAY →
        h.read a.value = some (Cell.Array arr ast) → h.read arr = some (Cell.JsonArray A) →
        h.read v.refCount = some (Cell.int m) →
        a.getArray h1 = Result.ok arr ∧ b.getArray h1 = Result.ok arr ∧
        ∃ h2, JsonArray.putAt arr v h1 = (Result.ok (), h2) ∧
          (b.getArray h2).bind (fun q => JsonArray.getSizeAt q h2)
            = Result.ok (A.getSize + 1) ∧
          ∃ A2, (b.getArray h2).bind (fun q => Result.ok (h2.read q))
              = Result.ok (some (Cell.JsonArray A2)) ∧
            A2.array.getLast? = some v) ∧
      (∀ obj ast O p m, a.type = JsonType.OBJECT →
        h.read a.value = some (Cell.Object obj ast) → h.read obj = some (Cell.JsonObject O) →
        h.read p.value.refCount = some (Cell.int m) →
        a.getObject h1 = Result.ok obj ∧ b.getObject h1 = Result.ok obj ∧
        ∃ h2, JsonObject.addPairAt obj p h1 = (Result.ok (), h2) ∧
          (b.getObject h2).bind (fun q => JsonObject.getPairsSizeAt q h2)
            = Result.ok (O.getPairsSize + 1) ∧
          ∃ O2, (b.getObject h2).bind (fun q => Result.ok (h2.read q))
              = Result.ok (some (Cell.JsonObject O2)) ∧
            O2.pairs.getLast? = some p) := by
  refine ⟨⟨a, _, JsonValue.copy_ok a h n hr⟩, ?_, ?_⟩
  · obtain ⟨h1, hasg, _⟩ := JsonValue.assign_construct fuel a h n hr
    exact ⟨a, h1, hasg⟩
  · intro b h1 hc
    obtain ⟨hb, hk, hcnt⟩ := JsonValue.copy_either fuel a b h h1 n hr hc
    subst hb
    constructor
    · intro arr ast A v m ht hv harr hvr
      have hv1 := hk _ _ hv (by simp)
      have harr1 := hk _ _ harr (by simp)
      obtain ⟨m1, hvr1⟩ := hcnt _ _ hvr
      obtain ⟨h2, hput, hnew, hkeep⟩ := JsonArray.putAt_ok arr A v h1 m1 harr1 hvr1
      have hne : b.value ≠ arr := by
        intro he
        rw [he, harr1] at hv1
        simp at hv1
      have hv2 := hkeep _ _ hv1 hne (by simp)
      have hg1 : b.getArray h1 = Result.ok arr := by
        simp [JsonValue.getArray, JsonValue.assertType, ht, Result.bind, hv1]
      have hg2 : b.getArray h2 = Result.ok arr := by
        simp [JsonValue.getArray, JsonValue.assertType, ht, Result.bind, hv2]
      refine ⟨hg1, hg1, h2, hput, ?_, ⟨A.array ++ [v]⟩, ?_, ?_⟩
      · simp [hg2, Result.bind, JsonArray.getSizeAt, hnew, JsonArray.getSize]
      · simp [hg2, Result.bind, hnew]
      · simp
    · intro obj ast O p m ht hv hobj hpr
      have hv1 := hk _ _ hv (by simp)
      have hobj1 := hk _ _ hobj (by simp)
      obtain ⟨m1, hpr1⟩ := hcnt _ _ hpr
      obtain ⟨h2, hadd, hnew, hkeep⟩ := JsonObject.addPairAt_ok obj O p h1 m1 hobj1 hpr1
      have hne : b.value ≠ obj := by
        intro he
        rw [he, hobj1] at hv1
        simp at hv1
      have hv2 := hkeep _ _ hv1 hne (by simp)
      have hg1 : b.getObject h1 = Result.ok obj := by
        simp [JsonValue.getObject, JsonValue.assertType, ht, Result.bind, hv1]
      have hg2 : b.getObject h2 = Result.ok obj := by
        simp [JsonValue.getObject, JsonValue.assertType, ht, Result.bind, hv2]
      refine ⟨hg1, hg1, h2, hadd, ?_, ⟨O.pairs ++ [p]⟩, ?_, ?_⟩
      · simp [hg2, Result.bind, JsonObject.getPairsSizeAt, hnew, JsonObject.getPairsSize]
      · simp [hg2, Result.bind, hnew]
      · simp

/-- C6 on the empty array owned by `⟨2, 3, ARRAY⟩`, copied by the copy
constructor, with the Number `⟨4, 5, NUMBER⟩` put into it. -/
theorem C6_container_copy_shallow_witness :
    JsonValue.getArray ⟨2, 3, JsonType.ARRAY⟩
        (JsonValue.copyConstruct ⟨2, 3, JsonType.ARRAY⟩ (Heap.withArray ⟨0⟩)).2 = Result.ok 1 ∧
    JsonValue.getArray ⟨2, 3, JsonType.ARRAY⟩
        (JsonValue.copyConstruct ⟨2, 3, JsonType.ARRAY⟩ (Heap.withArray ⟨0⟩)).2 = Result.ok 1 ∧
    ∃ h2, JsonArray.putAt 1 ⟨4, 5, JsonType.NUMBER⟩
          (JsonValue.copyConstruct ⟨2, 3, JsonType.ARRAY⟩ (Heap.withArray ⟨0⟩)).2
        = (Result.ok (), h2) ∧
      (JsonValue.getArray ⟨2, 3, JsonType.ARRAY⟩ h2).bind (fun q => JsonArray.getSizeAt q h2)
        = Result.ok (JsonArray.getSize ⟨[]⟩ + 1) ∧
      ∃ A2, (JsonValue.getArray ⟨2, 3, JsonType.ARRAY⟩ h2).bind (fun q => Result.ok (h2.read q))
          = Result.ok (some (Cell.JsonArray A2)) ∧
        A2.array.getLast? = some ⟨4, 5, JsonType.NUMBER⟩ :=
  ((C6_container_copy_shallow ⟨2, 3, JsonType.ARRAY⟩ (Heap.withArray ⟨0⟩) 1 0 (by decide)).2.2
    ⟨2, 3, JsonType.ARRAY⟩ _ (Or.inl rfl)).1 1 nullptr ⟨[]⟩ ⟨4, 5, JsonType.NUMBER⟩ 1 rfl
    (by decide) (by decide) (by decide)

/-- C7. `JsonArray::put` appends.  For every array of size `n` and every live
value `v`, `put(v)` succeeds; afterwards `getSize()` is `n + 1`; `get(n)` and
`operator[](n)` return `v` (for `n` an `int`, that is `n < 2^31`); for every
`int` index `0 ≤ i < n`, `get(i)` and `operator[](i)` return the element they
returned before, the `i`-th.  `put` is the only operation of `JsonArray` that
changes the array, and it does not decrease `getSize()`. -/
theorem C7_put_appends (this : JsonArray) (v : JsonValue) (h : Heap) (m : Int)
    (hv : h.read v.refCount = some (Cell.int m)) :
    ∃ this1 h1, this.put v h = (Result.ok this1, h1) ∧
      this1.getSize = this.getSize + 1 ∧
      this.getSize ≤ this1.getSize ∧
      ((this.getSize : Int) < 2 ^ 31 →
        this1.get this.getSize = Result.ok v ∧ this1.subscript this.getSize = Result.ok v) ∧
      (∀ i : Nat, i < this.getSize → (i : Int) < 2 ^ 31 →
        ∃ e, this.array[i]? = some e ∧
          this.get i = Result.ok e ∧ this1.get i = Result.ok e ∧
          this.subscript i = Result.ok e ∧ this1.subscript i = Result.ok e) ∧
      (∀ i : Int, 0 ≤ i → i < this.getSize → this1.get i = this.get i) := by
  refine ⟨⟨this.array ++ [v]⟩, h.write v.refCount (Cell.int (m + 1)), ?_, ?_, ?_, ?_, ?_, ?_⟩
  · simp [JsonArray.put, JsonValue.copyConstruct, JsonValue.copy_ok v h m hv]
  · simp [JsonArray.getSize]
  · simp [JsonArray.getSize]
  · intro hn
    have hk := JsonArray.index_toNat this.getSize hn
    simp only [JsonArray.subscript, JsonArray.get, hk, and_self]
    simp [JsonArray.getSize]
  · intro i hi hi31
    have hk := JsonArray.index_toNat i hi31
    have hi1 : i < this.array.length := hi
    refine ⟨this.array[i], List.getElem?_eq_getElem hi1, ?_⟩
    simp only [JsonArray.subscript, JsonArray.get, hk, and_self]
    simp [List.getElem?_append_left hi1, List.getElem?_eq_getElem hi1]
  · intro i h0 hi
    have hle := JsonArray.index_le i h0
    have hlt : (i % 2 ^ 32).toNat < this.array.length := by
      have : ((i % 2 ^ 32).toNat : Int) < this.array.length := lt_of_le_of_lt hle hi
      exact_mod_cast this
    simp only [JsonArray.get]
    rw [List.getElem?_append_left hlt]

/-- C7 on a one-element array, with the Number `⟨4, 5, NUMBER⟩` put into it. -/
theorem C7_put_appends_witness :
    ∃ this1 h1,
      JsonArray.put ⟨[⟨2, 3, JsonType.ARRAY⟩]⟩ ⟨4, 5, JsonType.NUMBER⟩ (Heap.withArray ⟨0⟩)
        = (Result.ok this1, h1) ∧
      this1.getSize = JsonArray.getSize ⟨[⟨2, 3, JsonType.ARRAY⟩]⟩ + 1 ∧
      JsonArray.getSize ⟨[⟨2, 3, JsonType.ARRAY⟩]⟩ ≤ this1.getSize ∧
      (((JsonArray.getSize ⟨[⟨2, 3, JsonType.ARRAY⟩]⟩ : Nat) : Int) < 2 ^ 31 →
        this1.get (JsonArray.getSize ⟨[⟨2, 3, JsonType.ARRAY⟩]⟩)
          = Result.ok ⟨4, 5, JsonType.NUMBER⟩ ∧
        this1.subscript (JsonArray.getSize ⟨[⟨2, 3, JsonType.ARRAY⟩]⟩)
          = Result.ok ⟨4, 5, JsonType.NUMBER⟩) ∧
      (∀ i : Nat, i < JsonArray.getSize ⟨[⟨2, 3, JsonType.ARRAY⟩]⟩ → (i : Int) < 2 ^ 31 →
        ∃ e, (JsonArray.mk [⟨2, 3, JsonType.ARRAY⟩]).array[i]? = some e ∧
          JsonArray.get ⟨[⟨2, 3, JsonType.ARRAY⟩]⟩ i = Result.ok e ∧
          this1.get i = Result.ok e ∧
          JsonArray.subscript ⟨[⟨2, 3, JsonType.ARRAY⟩]⟩ i = Result.ok e ∧
          this1.subscript i = Result.ok e) ∧
      (∀ i : Int, 0 ≤ i → i < JsonArray.getSize ⟨[⟨2, 3, JsonType.ARRAY⟩]⟩ →
        this1.get i = JsonArray.get ⟨[⟨2, 3, JsonType.ARRAY⟩]⟩ i) :=
  C7_put_appends ⟨[⟨2, 3, JsonType.ARRAY⟩]⟩ ⟨4, 5, JsonType.NUMBER⟩ (Heap.withArray ⟨0⟩) 1
    (by decide)

/-- C8, the claim refuted at a concrete input.  On the empty array, `get(0)`
and `operator[](0)` are out of bounds, and neither raises an error: the access
is the unchecked `std::vector::operator[]`, whose behaviour past the end is
not defined.  The same for the negative index `-1`. -/
theorem C8_no_bounds_check_counterexample :
    (JsonArray.get ⟨[]⟩ 0).raised = false ∧
    (JsonArray.subscript ⟨[]⟩ 0).raised = false ∧
    JsonArray.get ⟨[]⟩ 0 = Result.undefined ∧
    JsonArray.subscript ⟨[]⟩ 0 = Result.undefined ∧
    JsonArray.get ⟨[]⟩ (-1) = Result.undefined := by
  decide

/-- C8, amended.  `get` and `operator[]` never raise an error, and they agree
on every index.  For an `int` index `0 ≤ i < getSize()` they return the `i`-th
element.  For an index whose conversion to `unsigned` is not below
`getSize()` (every negative or too large index of an array of fewer than 2^31
elements) the access is out of bounds and not defined: no error is raised and
no value is returned. -/
theorem C8_get_unchecked (this : JsonArray) (i : Int) :
    (this.get i).raised = false ∧
    this.subscript i = this.get i ∧
    (∀ k : Nat, k < this.getSize → (k : Int) < 2 ^ 31 →
      ∃ e, this.array[k]? = some e ∧ this.get k = Result.ok e) ∧
    (this.getSize ≤ (i % 2 ^ 32).toNat → this.get i = Result.undefined) ∧
    (this.getSize < 2 ^ 31 → -(2 ^ 31) ≤ i → i < 2 ^ 31 → (i < 0 ∨ (this.getSize : Int) ≤ i) →
      this.get i = Result.undefined) := by
  refine ⟨?_, rfl, ?_, ?_, ?_⟩
  · unfold JsonArray.get
    split <;> rfl
  · intro k hk hk31
    have hidx := JsonArray.index_toNat k hk31
    have hk1 : k < this.array.length := hk
    refine ⟨this.array[k], List.getElem?_eq_getElem hk1, ?_⟩
    simp only [JsonArray.get, hidx]
    simp [List.getElem?_eq_getElem hk1]
  · intro hle
    have hle1 : this.array.length ≤ (i % 2 ^ 32).toNat := hle
    simp only [JsonArray.get]
    rw [List.getElem?_eq_none hle1]
  · intro hsz hlo hhi hout
    have hsz1 : this.array.length < 2 ^ 31 := hsz
    have hle1 : this.array.length ≤ (i % 2 ^ 32).toNat := by
      have h1 : 0 ≤ i % 2 ^ 32 := Int.emod_nonneg _ (by norm_num)
      have h2 : ((this.array.length : Nat) : Int) ≤ i % 2 ^ 32 := by
        have hout1 : i < 0 ∨ ((this.array.length : Nat) : Int) ≤ i := hout
        omega
      have h3 : ((this.array.length : Nat) : Int) ≤ ((i % 2 ^ 32).toNat : Int) := by
        rw [Int.toNat_of_nonneg h1]
        exact h2
      exact_mod_cast h3
    simp only [JsonArray.get]
    rw [List.getElem?_eq_none hle1]

/-- C8 (amended) on a one-element array: index 7 is out of bounds, index 0 is
the element. -/
theorem C8_get_unchecked_witness :
    (JsonArray.get ⟨[⟨4, 5, JsonType.NUMBER⟩]⟩ 7).raised = false ∧
    JsonArray.subscript ⟨[⟨4, 5, JsonType.NUMBER⟩]⟩ 7
      = JsonArray.get ⟨[⟨4, 5, JsonType.NUMBER⟩]⟩ 7 ∧
    JsonArray.get ⟨[⟨4, 5, JsonType.NUMBER⟩]⟩ 7 = Result.undefined ∧
    (∃ e, (JsonArray.mk [⟨4, 5, JsonType.NUMBER⟩]).array[0]? = some e ∧
      JsonArray.get ⟨[⟨4, 5, JsonType.NUMBER⟩]⟩ (0 : Nat) = Result.ok e) :=
  ⟨(C8_get_unchecked ⟨[⟨4, 5, JsonType.NUMBER⟩]⟩ 7).1,
   (C8_get_unchecked ⟨[⟨4, 5, JsonType.NUMBER⟩]⟩ 7).2.1,
   (C8_get_unchecked ⟨[⟨4, 5, JsonType.NUMBER⟩]⟩ 7).2.2.2.1 (by decide),
   (C8_get_unchecked ⟨[⟨4, 5, JsonType.NUMBER⟩]⟩ 7).2.2.1 0 (by decide) (by decide)⟩

/-- C9. Order preservation.  For every finite sequence of pairs `ps` (names may
repeat) whose values are live, adding them in order to an empty `JsonObject`
succeeds, and then the traversal `begin()..end()` yields exactly `ps`,
`getPairsSize()` is the length of `ps`, `front()` is the first and `back()` the
last pair of `ps`.  A single `addPair(p)` on any object succeeds and yields the
old traversal followed by `p`: nothing is rejected, replaced or reordered. -/
theorem C9_order_preserved (ps : List JsonPair) (h : Heap)
    (hv : ∀ p ∈ ps, ∃ m, h.read p.value.refCount = some (Cell.int m)) :
    (∃ o h1, JsonObject.addPairs ⟨[]⟩ ps h = (Result.ok o, h1) ∧
      o.traverse = ps ∧
      o.getPairsSize = ps.length ∧
      (∀ p1, ps.head? = some p1 → o.front = Result.ok p1) ∧
      (∀ pn, ps.getLast? = some pn → o.back = Result.ok pn)) ∧
    (∀ (o : JsonObject) (p : JsonPair) (h0 : Heap) (m : Int),
      h0.read p.value.refCount = some (Cell.int m) →
      ∃ o1 h1, o.addPair p h0 = (Result.ok o1, h1) ∧ o1.traverse = o.traverse ++ [p] ∧
        o1.getPairsSize = o.getPairsSize + 1) := by
  constructor
  · obtain ⟨h1, h1eq⟩ := JsonObject.addPairs_ok ps ⟨[]⟩ h hv
    refine ⟨⟨ps⟩, h1, by simpa using h1eq, rfl, rfl, ?_, ?_⟩
    · intro p1 hp
      simp [JsonObject.front, hp]
    · intro pn hp
      simp [JsonObject.back, hp]
  · intro o p h0 m hm
    exact ⟨_, _, JsonObject.addPair_ok o p h0 m hm, rfl, by simp [JsonObject.getPairsSize]⟩

/-- C9 on three pairs named `k1`, `k2`, `k1`. -/
theorem C9_order_preserved_witness :
    ∃ o h1,
      JsonObject.addPairs ⟨[]⟩
          [⟨"k1", ⟨4, 5, JsonType.NUMBER⟩⟩, ⟨"k2", ⟨2, 3, JsonType.ARRAY⟩⟩,
            ⟨"k1", ⟨4, 5, JsonType.NUMBER⟩⟩] (Heap.withArray ⟨0⟩) = (Result.ok o, h1) ∧
      o.traverse = [⟨"k1", ⟨4, 5, JsonType.NUMBER⟩⟩, ⟨"k2", ⟨2, 3, JsonType.ARRAY⟩⟩,
            ⟨"k1", ⟨4, 5, JsonType.NUMBER⟩⟩] ∧
      o.getPairsSize = [(⟨"k1", ⟨4, 5, JsonType.NUMBER⟩⟩ : JsonPair),
            ⟨"k2", ⟨2, 3, JsonType.ARRAY⟩⟩, ⟨"k1", ⟨4, 5, JsonType.NUMBER⟩⟩].length ∧
      (∀ p1, [(⟨"k1", ⟨4, 5, JsonType.NUMBER⟩⟩ : JsonPair),
            ⟨"k2", ⟨2, 3, JsonType.ARRAY⟩⟩, ⟨"k1", ⟨4, 5, JsonType.NUMBER⟩⟩].head? = some p1 →
          o.front = Result.ok p1) ∧
      (∀ pn, [(⟨"k1", ⟨4, 5, JsonType.NUMBER⟩⟩ : JsonPair),
            ⟨"k2", ⟨2, 3, JsonType.ARRAY⟩⟩, ⟨"k1", ⟨4, 5, JsonType.NUMBER⟩⟩].getLast? = some pn →
          o.back = Result.ok pn) :=
  (C9_order_preserved
    [⟨"k1", ⟨4, 5, JsonType.NUMBER⟩⟩, ⟨"k2", ⟨2, 3, JsonType.ARRAY⟩⟩,
      ⟨"k1", ⟨4, 5, JsonType.NUMBER⟩⟩] (Heap.withArray ⟨0⟩)
    (by
      intro p hp
      simp only [List.mem_cons, List.mem_singleton, List.not_mem_nil, or_false] at hp
      rcases hp with hp | hp | hp <;> subst hp
      · exact ⟨1, by decide⟩
      · exact ⟨1, by decide⟩
      · exact ⟨1, by decide⟩)).1

/-- C10. Map lookup correctness.  For every `JsonObject` whose pair names are
pairwise distinct (and whichever of first-wins and last-wins `buildMap`
implements): for the pair at any position `i`, `buildMap()[name]` is the
pointer to the value slot of that pair, and dereferencing it gives the value of
the pair; for a name that no pair has, the map has no entry, and `map[name]`
is the null pointer. -/
theorem C10_map_lookup (lastWins : Bool) (o : JsonObject)
    (hnd : (o.pairs.map JsonPair.getName).Nodup) :
    (∀ (i : Nat) (p : JsonPair), o.pairs[i]? = some p →
      ((o.buildMap lastWins).subscript p.getName).1 = some i ∧
      o.deref ((o.buildMap lastWins).subscript p.getName).1 = Result.ok p.value) ∧
    (∀ name : String, (∀ p ∈ o.pairs, p.getName ≠ name) →
      (o.buildMap lastWins).find name = none ∧
      ((o.buildMap lastWins).subscript name).1 = none) := by
  constructor
  · intro i p hp
    have hf := JsonObject.buildMapFrom_find_present lastWins o.pairs 0 i [] p hnd hp rfl
    rw [Nat.zero_add] at hf
    have hs : ((o.buildMap lastWins).subscript p.getName).1 = some i := by
      simp [PairMap.subscript, JsonObject.buildMap, hf]
    refine ⟨hs, ?_⟩
    rw [hs]
    simp [JsonObject.deref, hp]
  · intro name hname
    have hf := JsonObject.buildMapFrom_find_absent lastWins o.pairs 0 [] name hname
    have hf1 : (o.buildMap lastWins).find name = none := by
      rw [JsonObject.buildMap, hf]
      rfl
    exact ⟨hf1, by simp [PairMap.subscript, hf1]⟩

/-- C10 on the object `{"a": 1, "b": 2}`, for both choices of `lastWins`, with
the absent name `"c"`. -/
theorem C10_map_lookup_witness :
    (JsonObject.addPairs ⟨[]⟩ [⟨"a", ⟨1, 2, JsonType.NUMBER⟩⟩, ⟨"b", ⟨3, 4, JsonType.NUMBER⟩⟩]
        (Heap.withNumbers Double.one Double.two)).1
      = Result.ok ⟨[⟨"a", ⟨1, 2, JsonType.NUMBER⟩⟩, ⟨"b", ⟨3, 4, JsonType.NUMBER⟩⟩]⟩ ∧
    ((((JsonObject.mk [⟨"a", ⟨1, 2, JsonType.NUMBER⟩⟩,
          ⟨"b", ⟨3, 4, JsonType.NUMBER⟩⟩]).buildMap true).subscript
        (JsonPair.getName ⟨"a", ⟨1, 2, JsonType.NUMBER⟩⟩)).1 = some 0 ∧
      (JsonObject.mk [⟨"a", ⟨1, 2, JsonType.NUMBER⟩⟩, ⟨"b", ⟨3, 4, JsonType.NUMBER⟩⟩]).deref
        (((JsonObject.mk [⟨"a", ⟨1, 2, JsonType.NUMBER⟩⟩,
          ⟨"b", ⟨3, 4, JsonType.NUMBER⟩⟩]).buildMap true).subscript
            (JsonPair.getName ⟨"a", ⟨1, 2, JsonType.NUMBER⟩⟩)).1
        = Result.ok (JsonPair.value ⟨"a", ⟨1, 2, JsonType.NUMBER⟩⟩)) ∧
    ((((JsonObject.mk [⟨"a", ⟨1, 2, JsonType.NUMBER⟩⟩,
          ⟨"b", ⟨3, 4, JsonType.NUMBER⟩⟩]).buildMap false).subscript
        (JsonPair.getName ⟨"b", ⟨3, 4, JsonType.NUMBER⟩⟩)).1 = some 1 ∧
      (JsonObject.mk [⟨"a", ⟨1, 2, JsonType.NUMBER⟩⟩, ⟨"b", ⟨3, 4, JsonType.NUMBER⟩⟩]).deref
        (((JsonObject.mk [⟨"a", ⟨1, 2, JsonType.NUMBER⟩⟩,
          ⟨"b", ⟨3, 4, JsonType.NUMBER⟩⟩]).buildMap false).subscript
            (JsonPair.getName ⟨"b", ⟨3, 4, JsonType.NUMBER⟩⟩)).1
        = Result.ok (JsonPair.value ⟨"b", ⟨3, 4, JsonType.NUMBER⟩⟩)) ∧
    JsonValue.getNumber ⟨1, 2, JsonType.NUMBER⟩
        (JsonObject.addPairs ⟨[]⟩
          [⟨"a", ⟨1, 2, JsonType.NUMBER⟩⟩, ⟨"b", ⟨3, 4, JsonType.NUMBER⟩⟩]
          (Heap.withNumbers Double.one Double.two)).2
      = Result.ok Double.one ∧
    JsonValue.getNumber ⟨3, 4, JsonType.NUMBER⟩
        (JsonObject.addPairs ⟨[]⟩
          [⟨"a", ⟨1, 2, JsonType.NUMBER⟩⟩, ⟨"b", ⟨3, 4, JsonType.NUMBER⟩⟩]
          (Heap.withNumbers Double.one Double.two)).2
      = Result.ok Double.two ∧
    ((JsonObject.mk [⟨"a", ⟨1, 2, JsonType.NUMBER⟩⟩, ⟨"b", ⟨3, 4, JsonType.NUMBER⟩⟩]).buildMap
        true).find "c" = none ∧
    (((JsonObject.mk [⟨"a", ⟨1, 2, JsonType.NUMBER⟩⟩, ⟨"b", ⟨3, 4, JsonType.NUMBER⟩⟩]).buildMap
        true).subscript "c").1 = none :=
  ⟨by decide,
   (C10_map_lookup true ⟨[⟨"a", ⟨1, 2, JsonType.NUMBER⟩⟩, ⟨"b", ⟨3, 4, JsonType.NUMBER⟩⟩]⟩
      (by decide)).1 0 ⟨"a", ⟨1, 2, JsonType.NUMBER⟩⟩ rfl,
   (C10_map_lookup false ⟨[⟨"a", ⟨1, 2, JsonType.NUMBER⟩⟩, ⟨"b", ⟨3, 4, JsonType.NUMBER⟩⟩]⟩
      (by decide)).1 1 ⟨"b", ⟨3, 4, JsonType.NUMBER⟩⟩ rfl,
   by decide, by decide,
   (C10_map_lookup true ⟨[⟨"a", ⟨1, 2, JsonType.NUMBER⟩⟩, ⟨"b", ⟨3, 4, JsonType.NUMBER⟩⟩]⟩
      (by decide)).2 "c" (by decide)⟩

/-- C14 at the failing input.  `JsonValue::create("x")` with the string literal
selects `create(bool)`: the value has type BOOLEAN, not STRING, it reads
`true`, and `getString()` on it throws a type mismatch. -/
theorem C14_create_literal_is_boolean :
    ∃ h1, JsonValue.createLiteral "x" Heap.empty
        = some (Result.ok ⟨1, 2, JsonType.BOOLEAN⟩, h1) ∧
      JsonValue.getType ⟨1, 2, JsonType.BOOLEAN⟩ ≠ JsonType.STRING ∧
      JsonValue.getBoolean ⟨1, 2, JsonType.BOOLEAN⟩ = Result.ok true ∧
      JsonValue.getString ⟨1, 2, JsonType.BOOLEAN⟩
        = Result.raise (Exception.typeMismatch JsonType.BOOLEAN JsonType.STRING) :=
  ⟨_, rfl, by decide, rfl, rfl⟩

/-- The `create` overloads, apart from the literal.  In every heap the `create`
functions return, and the value
has the variant of the overload that was called: `create(s)` for a
`std::string` `s` has type STRING and `getString()` refers to `s`;
`create(str, length)` has type STRING and `getString()` refers to the first
`length` characters at `str` (to `s` when the pair designates `s`);
`create(b)` has type BOOLEAN and `getBoolean()` is `b`; `create(d)` has type
NUMBER and `getNumber()` is `d`.  A string literal argument is none of the
string forms: the call is `create(true)`. -/
theorem JsonValue.create_variants (h : Heap) :
    (∀ s : String, ∃ v h1, JsonValue.createStd s h = some (Result.ok v, h1) ∧
      v.getType = JsonType.STRING ∧
      ∃ p, v.getString = Result.ok p ∧ h1.read p = some (Cell.string s)) ∧
    (∀ (s : String) (length : Nat),
      ∃ v h1, JsonValue.create s length h = some (Result.ok v, h1) ∧
        v.getType = JsonType.STRING ∧
        ∃ p, v.getString = Result.ok p ∧
          h1.read p = some (Cell.string (String.mk (s.data.take length))) ∧
          (length = s.length → h1.read p = some (Cell.string s))) ∧
    (∀ b : Bool, ∃ v h1, JsonValue.createBool b h = some (Result.ok v, h1) ∧
      v.getType = JsonType.BOOLEAN ∧ v.getBoolean = Result.ok b) ∧
    (∀ d : Double, ∃ v h1, JsonValue.createDouble d h = some (Result.ok v, h1) ∧
      v.getType = JsonType.NUMBER ∧ v.getNumber h1 = Result.ok d) ∧
    (∀ literal : String, ∃ v h1,
      JsonValue.createLiteral literal h = some (Result.ok v, h1) ∧
        v.getType = JsonType.BOOLEAN ∧ v.getBoolean = Result.ok true) := by
  have hfull : ∀ s : String, String.mk (s.data.take s.length) = s := by
    intro s
    have hz : s.length = s.data.length := rfl
    rw [hz, List.take_length]
  have hbool : ∀ b : Bool, ∃ v h1, JsonValue.createBool b h = some (Result.ok v, h1) ∧
      v.getType = JsonType.BOOLEAN ∧ v.getBoolean = Result.ok b := by
    intro b
    obtain ⟨v, h1, hc, hty, hval, _⟩ := JsonValue.createBool_ok b h
    refine ⟨v, h1, hc, hty, ?_⟩
    cases b <;> simp [JsonValue.getBoolean, JsonValue.assertType, hty, Result.bind, hval, nullptr]
  refine ⟨?_, ?_, hbool, ?_, ?_⟩
  · intro s
    obtain ⟨v, h1, hc, hty, hval, _⟩ := JsonValue.create_ok s s.length h
    refine ⟨v, h1, hc, hty, v.value, ?_, ?_⟩
    · simp [JsonValue.getString, JsonValue.assertType, hty, Result.bind]
    · rw [hval, hfull]
  · intro s length
    obtain ⟨v, h1, hc, hty, hval, _⟩ := JsonValue.create_ok s length h
    refine ⟨v, h1, hc, hty, v.value, ?_, hval, ?_⟩
    · simp [JsonValue.getString, JsonValue.assertType, hty, Result.bind]
    · intro hlen
      rw [hval, hlen, hfull]
  · intro d
    obtain ⟨v, h1, hc, hty, hval, _⟩ := JsonValue.createDouble_ok d h
    refine ⟨v, h1, hc, hty, ?_⟩
    simp [JsonValue.getNumber, JsonValue.assertType, hty, Result.bind, hval]
  · intro literal
    exact hbool true

/-- C15. Set-then-get on one handle.  For every String value `v` (its payload
holds some `s0`) and every text `s`: `v.setString(s)` succeeds, afterwards
`v.getString()` refers to `s`, and setting `s` again leaves the heap as it is.
The same for a Number value with `setNumber`/`getNumber`.  For every Boolean
value `v` and bool `b`: `v.setBoolean(b)` succeeds, afterwards `v.getBoolean()`
is `b`, and setting `b` again leaves the handle as it is.  In each case
`getType()` is what it was. -/
theorem C15_set_then_get (v : JsonValue) (h : Heap) :
    (∀ s s0 : String, v.type = JsonType.STRING → h.read v.value = some (Cell.string s0) →
      ∃ h1, v.setString s h = (Result.ok (), h1) ∧
        (∃ p, v.getString = Result.ok p ∧ h1.read p = some (Cell.string s)) ∧
        v.getType = JsonType.STRING ∧
        v.setString s h1 = (Result.ok (), h1)) ∧
    (∀ d d0 : Double, v.type = JsonType.NUMBER → h.read v.value = some (Cell.double d0) →
      ∃ h1, v.setNumber d h = (Result.ok (), h1) ∧
        v.getNumber h1 = Result.ok d ∧
        v.getType = JsonType.NUMBER ∧
        v.setNumber d h1 = (Result.ok (), h1)) ∧
    (∀ b : Bool, v.type = JsonType.BOOLEAN →
      ∃ v1, v.setBoolean b = (Result.ok (), v1) ∧
        v1.getBoolean = Result.ok b ∧
        v1.getType = v.getType ∧
        v1.setBoolean b = (Result.ok (), v1)) := by
  refine ⟨?_, ?_, ?_⟩
  · intro s s0 ht hv
    have hv1 := Heap.read_write_same h v.value (Cell.string s) _ hv
    refine ⟨h.write v.value (Cell.string s), ?_, ⟨v.value, ?_, hv1⟩, ht, ?_⟩
    · simp [JsonValue.setString, JsonValue.assertType, ht, hv]
    · simp [JsonValue.getString, JsonValue.assertType, ht, Result.bind]
    · simp [JsonValue.setString, JsonValue.assertType, ht, hv1, Heap.write_write]
  · intro d d0 ht hv
    have hv1 := Heap.read_write_same h v.value (Cell.double d) _ hv
    refine ⟨h.write v.value (Cell.double d), ?_, ?_, ht, ?_⟩
    · simp [JsonValue.setNumber, JsonValue.assertType, ht, hv]
    · simp [JsonValue.getNumber, JsonValue.assertType, ht, Result.bind, hv1]
    · simp [JsonValue.setNumber, JsonValue.assertType, ht, hv1, Heap.write_write]
  · intro b ht
    refine ⟨{ v with value := if b then 1 else nullptr }, ?_, ?_, rfl, ?_⟩
    · simp [JsonValue.setBoolean, JsonValue.assertType, ht]
    · cases b <;> simp [JsonValue.getBoolean, JsonValue.assertType, ht, Result.bind, nullptr]
    · simp [JsonValue.setBoolean, JsonValue.assertType, ht]

/-- C15 on the String handle `⟨1, 2, STRING⟩` owning `"x"`, set to `"y"`. -/
theorem C15_set_then_get_witness :
    ∃ h1, JsonValue.setString ⟨1, 2, JsonType.STRING⟩ "y" (Heap.single (Cell.string "x"))
        = (Result.ok (), h1) ∧
      (∃ p, JsonValue.getString ⟨1, 2, JsonType.STRING⟩ = Result.ok p ∧
        h1.read p = some (Cell.string "y")) ∧
      JsonValue.getType ⟨1, 2, JsonType.STRING⟩ = JsonType.STRING ∧
      JsonValue.setString ⟨1, 2, JsonType.STRING⟩ "y" h1 = (Result.ok (), h1) :=
  (C15_set_then_get ⟨1, 2, JsonType.STRING⟩ (Heap.single (Cell.string "x"))).1 "y" "x" rfl
    (by decide)

/-- C17. A default-constructed `JsonValue`, in every heap: its type is
NULL_VALUE, its `value` is null and its count is 1; each typed getter throws
the type mismatch (NULL_VALUE found); each typed setter throws it and changes
nothing.  A `JsonPair` constructed from a name `n` has `getName() == n` and a
value of type NULL_VALUE with count 1; `setName` keeps that value, and
`setValue(w)` of a live `w` replaces it by `w`. -/
theorem C17_default_is_null (h : Heap) (name : String) :
    (JsonValue.construct h).1.getType = JsonType.NULL_VALUE ∧
    (JsonValue.construct h).1.value = nullptr ∧
    (JsonValue.construct h).2.read (JsonValue.construct h).1.refCount = some (Cell.int 1) ∧
    (JsonValue.construct h).1.getString
      = Result.raise (Exception.typeMismatch JsonType.NULL_VALUE JsonType.STRING) ∧
    (JsonValue.construct h).1.getNumber (JsonValue.construct h).2
      = Result.raise (Exception.typeMismatch JsonType.NULL_VALUE JsonType.NUMBER) ∧
    (JsonValue.construct h).1.getBoolean
      = Result.raise (Exception.typeMismatch JsonType.NULL_VALUE JsonType.BOOLEAN) ∧
    (JsonValue.construct h).1.getArray (JsonValue.construct h).2
      = Result.raise (Exception.typeMismatch JsonType.NULL_VALUE JsonType.ARRAY) ∧
    (JsonValue.construct h).1.getObject (JsonValue.construct h).2
      = Result.raise (Exception.typeMismatch JsonType.NULL_VALUE JsonType.OBJECT) ∧
    (∀ s : String, (JsonValue.construct h).1.setString s (JsonValue.construct h).2
      = (Result.raise (Exception.typeMismatch JsonType.NULL_VALUE JsonType.STRING),
          (JsonValue.construct h).2)) ∧
    (∀ d : Double, (JsonValue.construct h).1.setNumber d (JsonValue.construct h).2
      = (Result.raise (Exception.typeMismatch JsonType.NULL_VALUE JsonType.NUMBER),
          (JsonValue.construct h).2)) ∧
    (∀ b : Bool, (JsonValue.construct h).1.setBoolean b
      = (Result.raise (Exception.typeMismatch JsonType.NULL_VALUE JsonType.BOOLEAN),
          (JsonValue.construct h).1)) ∧
    (JsonPair.construct name h).1.getName = name ∧
    (JsonPair.construct name h).1.value.getType = JsonType.NULL_VALUE ∧
    (JsonPair.construct name h).2.read (JsonPair.construct name h).1.value.refCount
      = some (Cell.int 1) ∧
    (∀ n1 : String, ((JsonPair.construct name h).1.setName n1).value.getType
      = JsonType.NULL_VALUE) ∧
    (∀ (fuel : Nat) (w : JsonValue) (k : Int), h.read w.refCount = some (Cell.int k) →
      ∃ h1, (JsonPair.construct name h).1.setValue (fuel + 1) w (JsonPair.construct name h).2
        = some (Result.ok ⟨name, w⟩, h1)) := by
  have hnew := Heap.read_alloc_new h (Cell.int 1)
  refine ⟨rfl, rfl, hnew, rfl, rfl, rfl, rfl, rfl, fun _ => rfl, fun _ => rfl, fun _ => rfl,
    rfl, rfl, hnew, fun _ => rfl, ?_⟩
  intro fuel w k hw
  obtain ⟨h1, hasg, _⟩ := JsonValue.assign_construct fuel w h k hw
  refine ⟨h1, ?_⟩
  simp only [JsonPair.setValue, JsonPair.construct, hasg]

/-- C17 in the empty heap, with the live Number `⟨1, 2, NUMBER⟩` set as value. -/
theorem C17_default_is_null_witness :
    ∃ h1, (JsonPair.construct "n" (Heap.single (Cell.double ⟨0⟩))).1.setValue (0 + 1)
        ⟨1, 2, JsonType.NUMBER⟩ (JsonPair.construct "n" (Heap.single (Cell.double ⟨0⟩))).2
      = some (Result.ok ⟨"n", ⟨1, 2, JsonType.NUMBER⟩⟩, h1) :=
  (C17_default_is_null (Heap.single (Cell.double ⟨0⟩)) "n").2.2.2.2.2.2.2.2.2.2.2.2.2.2.2
    0 ⟨1, 2, JsonType.NUMBER⟩ 1 (by decide)

/-- C11. `removePair(name)` removes exactly the first pair of that name.  If no
pair has the name, the call returns and the object and the heap are unchanged.
If the pairs are `l1 ++ p :: l2` with `p` named `name` and no pair of `l1`
named `name`, then the pairs become `l1 ++ l2`: every other pair, the later
pairs of the same name among them, stays in its place and order.  This holds
whenever destroying the value of `p` returns, and destroying it does return
(with one unit of fuel) when that value is plain. -/
theorem C11_remove_first (o : JsonObject) (name : String) (h : Heap) (fuel : Nat) :
    ((∀ p ∈ o.pairs, p.getName ≠ name) →
      o.removePair fuel name h = some (Result.ok o, h)) ∧
    (∀ (l1 : List JsonPair) (p : JsonPair) (l2 : List JsonPair),
      o.pairs = l1 ++ p :: l2 → p.getName = name → (∀ q ∈ l1, q.getName ≠ name) →
      (∀ h1, JsonValue.release fuel p.value h = some (Result.ok (), h1) →
        o.removePair fuel name h = some (Result.ok ⟨l1 ++ l2⟩, h1)) ∧
      (∀ n, p.value.Plain h n →
        ∃ h1, o.removePair (fuel + 1) name h = some (Result.ok ⟨l1 ++ l2⟩, h1))) := by
  constructor
  · intro hne
    simp [JsonObject.removePair, JsonObject.removePairFrom_absent fuel name o.pairs h hne]
  · intro l1 p l2 hps hp hl1
    constructor
    · intro h1 hrel
      simp [JsonObject.removePair, hps,
        JsonObject.removePairFrom_first fuel name p l2 h h1 hp hrel l1 hl1]
    · intro n hplain
      obtain ⟨h1, hrel, _⟩ := JsonValue.release_plain fuel p.value h n hplain
      refine ⟨h1, ?_⟩
      simp [JsonObject.removePair, hps,
        JsonObject.removePairFrom_first (fuel + 1) name p l2 h h1 hp hrel l1 hl1]

/-- C11 on the pairs `a`, `b`, `a`, `c` holding live Numbers: removing `b`
removes the second pair; the names left are `a`, `a`, `c`. -/
theorem C11_remove_first_witness :
    ∃ h1, JsonObject.removePair (0 + 1)
        ⟨[⟨"a", ⟨1, 2, JsonType.NUMBER⟩⟩, ⟨"b", ⟨3, 4, JsonType.NUMBER⟩⟩,
          ⟨"a", ⟨1, 2, JsonType.NUMBER⟩⟩, ⟨"c", ⟨1, 2, JsonType.NUMBER⟩⟩]⟩ "b"
        (Heap.withNumbers Double.one Double.two)
      = some (Result.ok ⟨[⟨"a", ⟨1, 2, JsonType.NUMBER⟩⟩] ++
          [⟨"a", ⟨1, 2, JsonType.NUMBER⟩⟩, ⟨"c", ⟨1, 2, JsonType.NUMBER⟩⟩]⟩, h1) :=
  ((C11_remove_first
      ⟨[⟨"a", ⟨1, 2, JsonType.NUMBER⟩⟩, ⟨"b", ⟨3, 4, JsonType.NUMBER⟩⟩,
        ⟨"a", ⟨1, 2, JsonType.NUMBER⟩⟩, ⟨"c", ⟨1, 2, JsonType.NUMBER⟩⟩]⟩ "b"
      (Heap.withNumbers Double.one Double.two) 0).2
    [⟨"a", ⟨1, 2, JsonType.NUMBER⟩⟩] ⟨"b", ⟨3, 4, JsonType.NUMBER⟩⟩
    [⟨"a", ⟨1, 2, JsonType.NUMBER⟩⟩, ⟨"c", ⟨1, 2, JsonType.NUMBER⟩⟩] rfl rfl
    (by
      intro q hq
      simp only [List.mem_singleton] at hq
      subst hq
      decide)).2 1
    ⟨by decide, Or.inr (Or.inr (Or.inr (Or.inr ⟨rfl, Double.two, by decide⟩)))⟩

/-- C16. The name and the value of a pair are independent.  For every pair
`p`: after `setName(n)`, `getName()` is `n`, `equals(n)` is true and
`getValue()` gives what it gave before; `equals(m)` is true exactly when `m` is
`getName()`; for a live `v`, when the old value of `p` is plain and is not the
last owner of the count of `v`, `setValue(v)` succeeds, `getName()` is what it
was, and `getValue()` returns a handle with the payload pointer, the count
pointer and the type of `v`. -/
theorem C16_pair_fields (p : JsonPair) (h : Heap) :
    (∀ n : String, (p.setName n).getName = n ∧ (p.setName n).equals n = true ∧
      (p.setName n).getValue h = p.getValue h) ∧
    (∀ m : String, p.equals m = true ↔ m = p.getName) ∧
    (∀ (fuel : Nat) (v : JsonValue) (n k : Int), p.value.Plain h n →
      h.read v.refCount = some (Cell.int k) →
      (v.refCount ≠ p.value.refCount ∨ n - 1 ≠ 0) →
      ∃ p1 h1, p.setValue (fuel + 1) v h = some (Result.ok p1, h1) ∧
        p1.getName = p.getName ∧
        ∃ h2, p1.getValue h1 = (Result.ok v, h2)) := by
  refine ⟨?_, JsonPair.equals_iff p, ?_⟩
  · intro n
    refine ⟨rfl, ?_, rfl⟩
    simp [JsonPair.equals, JsonPair.setName]
  · intro fuel v n k hplain hv hown
    obtain ⟨h0, hrel, hcnt, hshared⟩ := JsonValue.release_plain fuel p.value h n hplain
    have hv0 : ∃ k0, h0.read v.refCount = some (Cell.int k0) := by
      by_cases he : v.refCount = p.value.refCount
      · rcases hown with hown | hown
        · exact absurd he hown
        · exact ⟨n - 1, by rw [he]; exact hshared hown⟩
      · exact ⟨k, hcnt _ _ hv he⟩
    obtain ⟨k0, hk0⟩ := hv0
    have hk1 := Heap.read_write_same h0 v.refCount (Cell.int (k0 + 1)) _ hk0
    refine ⟨{ p with value := v }, h0.write v.refCount (Cell.int (k0 + 1)), ?_, rfl,
      (h0.write v.refCount (Cell.int (k0 + 1))).write v.refCount (Cell.int (k0 + 1 + 1)), ?_⟩
    · simp [JsonPair.setValue, JsonValue.assignOp, JsonValue.assign, hrel,
        JsonValue.afterRelease, JsonValue.copy_ok v h0 k0 hk0]
    · simp [JsonPair.getValue, JsonValue.copyConstruct, JsonValue.copy_ok v _ _ hk1]

/-- C16 on a pair holding the Number `⟨1, 2, NUMBER⟩`, given the Number
`⟨3, 4, NUMBER⟩` as its new value. -/
theorem C16_pair_fields_witness :
    ∃ p1 h1, JsonPair.setValue (0 + 1) ⟨"a", ⟨1, 2, JsonType.NUMBER⟩⟩ ⟨3, 4, JsonType.NUMBER⟩
        (Heap.withNumbers Double.one Double.two) = some (Result.ok p1, h1) ∧
      p1.getName = JsonPair.getName ⟨"a", ⟨1, 2, JsonType.NUMBER⟩⟩ ∧
      ∃ h2, p1.getValue h1 = (Result.ok ⟨3, 4, JsonType.NUMBER⟩, h2) :=
  (C16_pair_fields ⟨"a", ⟨1, 2, JsonType.NUMBER⟩⟩
      (Heap.withNumbers Double.one Double.two)).2.2 0 ⟨3, 4, JsonType.NUMBER⟩ 1 1
    ⟨by decide, Or.inr (Or.inr (Or.inr (Or.inr ⟨rfl, Double.one, by decide⟩)))⟩
    (by decide) (Or.inl (by decide))

/-- C13. End-to-end parse of the test corpus.  Parsing the text of `jsonFile`
succeeds; the root object has the members `key1`, `key2`, `obj2`, `key4` in
that order; `key1` is a String equal to the 8 characters `"value1"`, quotes
included; `key2` is an Array of size 1 whose element is an Array of size 2
whose two elements are Null; `obj2.key3.key33` is the Boolean `true`; `key4`
is the Number that the literal `+123e-1` denotes, which is the double `12.3`
(bit pattern `0x402899999999999A`).  The members are reached as the test
program reaches them, through `buildMap` (for either way it may treat
duplicate names). -/
theorem C13_end_to_end (lastWins : Bool) :
    jsonFileParsed.1 = true ∧
    jsonFileParsed.2.1.traverse.map JsonPair.getName = ["key1", "key2", "obj2", "key4"] ∧
    ((jsonFileParsed.2.1.object.member lastWins "key1").bind fun v =>
        Result.ok v.getType) = Result.ok JsonType.STRING ∧
    ((jsonFileParsed.2.1.object.member lastWins "key1").bind fun v =>
        v.getString.bind jsonFileParsed.2.2.readString) = Result.ok "\"value1\"" ∧
    "\"value1\"".length = 8 ∧
    ((jsonFileParsed.2.1.object.member lastWins "key2").bind fun v =>
        (v.getArray jsonFileParsed.2.2).bind fun a =>
          JsonArray.getSizeAt a jsonFileParsed.2.2) = Result.ok 1 ∧
    ((jsonFileParsed.2.1.object.member lastWins "key2").bind fun v =>
        (v.getArray jsonFileParsed.2.2).bind fun a =>
          (JsonArray.getAt a 0 jsonFileParsed.2.2).bind fun e =>
            (e.getArray jsonFileParsed.2.2).bind fun b =>
              JsonArray.getSizeAt b jsonFileParsed.2.2) = Result.ok 2 ∧
    ((jsonFileParsed.2.1.object.member lastWins "key2").bind fun v =>
        (v.getArray jsonFileParsed.2.2).bind fun a =>
          (JsonArray.getAt a 0 jsonFileParsed.2.2).bind fun e =>
            (e.getArray jsonFileParsed.2.2).bind fun b =>
              (JsonArray.getAt b 0 jsonFileParsed.2.2).bind fun n =>
                Result.ok n.getType) = Result.ok JsonType.NULL_VALUE ∧
    ((jsonFileParsed.2.1.object.member lastWins "key2").bind fun v =>
        (v.getArray jsonFileParsed.2.2).bind fun a =>
          (JsonArray.getAt a 0 jsonFileParsed.2.2).bind fun e =>
            (e.getArray jsonFileParsed.2.2).bind fun b =>
              (JsonArray.getAt b 1 jsonFileParsed.2.2).bind fun n =>
                Result.ok n.getType) = Result.ok JsonType.NULL_VALUE ∧
    ((jsonFileParsed.2.1.object.member lastWins "obj2").bind fun v =>
        (v.getObject jsonFileParsed.2.2).bind fun q =>
          (JsonObject.memberAt lastWins q "key3" jsonFileParsed.2.2).bind fun w =>
            (w.getObject jsonFileParsed.2.2).bind fun q3 =>
              (JsonObject.memberAt lastWins q3 "key33" jsonFileParsed.2.2).bind fun x =>
                x.getBoolean) = Result.ok true ∧
    ((jsonFileParsed.2.1.object.member lastWins "key4").bind fun v =>
        v.getNumber jsonFileParsed.2.2) = Result.ok (Double.ofDecimal false 123 (-1)) ∧
    Double.ofDecimal false 123 (-1) = ⟨0x402899999999999A⟩ := by
  cases lastWins <;> decide!

/-- C18. `Json` is a transparent wrapper over its `JsonObject`.  For every
document `d`: `addPair`, `removePair` and `operator=` on a document have, on
the wrapped object, exactly the outcome (result, pair sequence and heap) of the
same call on the wrapped object; `buildMap`, the traversal `begin()..end()`,
`front` and `back` give what they give on `d.object`.

Copying and assigning.  When the values of the pairs of `d` are live:
copy-constructing a `Json` from `d` or from `d.object` succeeds; assigning `d`
to a default-constructed `Json` succeeds; assigning `d` to any other document
`t`, empty or not, whose values are shared outside `t` succeeds; each gives a
document with the pair sequence of `d` (same names, same order, the same
handles, so the same payloads), allocates nothing and touches no payload.
Assigning a document to itself returns at once and changes nothing.  Whatever
the target, an assignment of `d` that returns gives the pair sequence of
`d`. -/
theorem C18_json_wraps_object (d : Json) (h : Heap) :
    (∀ p : JsonPair, Json.unwrap (d.addPair p h) = d.object.addPair p h) ∧
    (∀ (fuel : Nat) (name : String),
      (d.removePair fuel name h).map Json.unwrap = d.object.removePair fuel name h) ∧
    (∀ (fuel : Nat) (json : Rhs Json),
      (d.assignOp fuel json h).map Json.unwrap
        = d.object.assignOp fuel (json.map fun j => j.object) h) ∧
    (∀ lastWins : Bool, d.buildMap lastWins = d.object.buildMap lastWins) ∧
    d.traverse = d.object.traverse ∧
    d.front = d.object.front ∧
    d.back = d.object.back ∧
    ((∀ p ∈ d.object.pairs, ∃ m, h.read p.value.refCount = some (Cell.int m)) →
      (∃ d1 h1, d.copyConstruct h = (Result.ok d1, h1) ∧ d1.traverse = d.traverse ∧
        h.PayloadsKept h1 ∧ h1.next = h.next) ∧
      (∃ d1 h1, Json.ofObject d.object h = (Result.ok d1, h1) ∧ d1.traverse = d.traverse ∧
        h.PayloadsKept h1 ∧ h1.next = h.next) ∧
      (∀ fuel : Nat, ∃ d1 h1,
        Json.construct.assignOp fuel (Rhs.other d) h = some (Result.ok d1, h1) ∧
          d1.traverse = d.traverse ∧ h.PayloadsKept h1 ∧ h1.next = h.next) ∧
      (∀ (fuel : Nat) (t : Json), JsonObject.SharedOutside t.object.pairs h →
        ∃ d1 h1, t.assignOp (fuel + 1) (Rhs.other d) h = some (Result.ok d1, h1) ∧
          d1.traverse = d.traverse ∧ h.PayloadsKept h1 ∧ h1.next = h.next)) ∧
    (∀ fuel : Nat, d.assignOp fuel Rhs.self h = some (Result.ok d, h)) ∧
    (∀ (fuel : Nat) (t d1 : Json) (h1 : Heap),
      t.assignOp fuel (Rhs.other d) h = some (Result.ok d1, h1) →
        d1.traverse = d.traverse) := by
  have hid : Json.unwrap ∘ Json.wrap = id := funext fun r => Json.unwrap_wrap r
  refine ⟨fun p => Json.unwrap_wrap _, ?_, ?_, fun _ => rfl, rfl, rfl, rfl, ?_, ?_, ?_⟩
  · intro fuel name
    unfold Json.removePair
    rw [Option.map_map, hid, Option.map_id]
    rfl
  · intro fuel json
    unfold Json.assignOp
    rw [Option.map_map, hid, Option.map_id]
    rfl
  · intro hlive
    obtain ⟨h1, hcp, hk, hnext, _⟩ := JsonObject.copyPairs_ok d.object.pairs h hlive
    have hcopy : JsonObject.copyConstruct d.object h = (Result.ok d.object, h1) := by
      simp [JsonObject.copyConstruct, hcp]
    refine ⟨⟨d, h1, ?_, rfl, hk, hnext⟩, ⟨d, h1, ?_, rfl, hk, hnext⟩, ?_, ?_⟩
    · simp [Json.copyConstruct, hcopy, Json.wrap]
    · simp [Json.ofObject, hcopy, Json.wrap]
    · intro fuel
      refine ⟨d, h1, ?_, rfl, hk, hnext⟩
      simp [Json.assignOp, Json.construct, JsonObject.assignOp, JsonObject.assignPairs,
        Rhs.map, JsonObject.assignEach, hcp, Json.wrap]
    · intro fuel t hshared
      obtain ⟨h2, hasg, hk2, hnext2⟩ :=
        JsonObject.assignEach_shared fuel t.object.pairs d.object.pairs h hshared hlive
      refine ⟨d, h2, ?_, rfl, hk2, hnext2⟩
      simp [Json.assignOp, JsonObject.assignOp, JsonObject.assignPairs, Rhs.map, hasg,
        Json.wrap]
  · intro fuel
    simp [Json.assignOp, JsonObject.assignOp, JsonObject.assignPairs, Rhs.map, Json.wrap]
  · intro fuel t d1 h1 hc
    unfold Json.assignOp JsonObject.assignOp JsonObject.assignPairs at hc
    simp only [Rhs.map] at hc
    cases hres : JsonObject.assignEach fuel t.object.pairs d.object.pairs h with
    | none => simp [hres] at hc
    | some r =>
      obtain ⟨r1, r2⟩ := r
      cases r1 with
      | ok ps =>
        have hps := JsonObject.assignEach_result fuel _ _ _ _ _ hres
        simp only [hres, Option.map_some', Json.wrap, Option.some.injEq, Prod.mk.injEq,
          Result.ok.injEq] at hc
        obtain ⟨hd1, _⟩ := hc
        rw [← hd1, hps]
      | raise x => simp [hres, Json.wrap] at hc
      | undefined => simp [hres, Json.wrap] at hc

/-- C18 on the document `{"a": 1, "b": 2}`, assigned to the one-pair document
`{"x": 1}` whose value is the Number `⟨1, 2, NUMBER⟩` with a count of 2: the
target gets the two pairs of the source. -/
theorem C18_json_wraps_object_witness :
    ∃ d1 h1,
      Json.assignOp (0 + 1) ⟨⟨[⟨"x", ⟨1, 2, JsonType.NUMBER⟩⟩]⟩⟩
          (Rhs.other ⟨⟨[⟨"a", ⟨1, 2, JsonType.NUMBER⟩⟩, ⟨"b", ⟨3, 4, JsonType.NUMBER⟩⟩]⟩⟩)
          ((Heap.withNumbers Double.one Double.two).write 2 (Cell.int 2))
        = some (Result.ok d1, h1) ∧
      d1.traverse = Json.traverse
          ⟨⟨[⟨"a", ⟨1, 2, JsonType.NUMBER⟩⟩, ⟨"b", ⟨3, 4, JsonType.NUMBER⟩⟩]⟩⟩ ∧
      ((Heap.withNumbers Double.one Double.two).write 2 (Cell.int 2)).PayloadsKept h1 ∧
      h1.next = ((Heap.withNumbers Double.one Double.two).write 2 (Cell.int 2)).next :=
  ((C18_json_wraps_object
      ⟨⟨[⟨"a", ⟨1, 2, JsonType.NUMBER⟩⟩, ⟨"b", ⟨3, 4, JsonType.NUMBER⟩⟩]⟩⟩
      ((Heap.withNumbers Double.one Double.two).write 2 (Cell.int 2))).2.2.2.2.2.2.2.1
    (by
      intro p hp
      simp only [List.mem_cons, List.mem_singleton, List.not_mem_nil, or_false] at hp
      rcases hp with hp | hp <;> subst hp
      · exact ⟨2, by decide⟩
      · exact ⟨1, by decide⟩)).2.2.2 0 ⟨⟨[⟨"x", ⟨1, 2, JsonType.NUMBER⟩⟩]⟩⟩
    (by
      intro p hp
      simp only [List.mem_singleton] at hp
      subst hp
      exact ⟨2, by decide, by decide⟩)

end MyLib
